import Mathlib

/-!
Verification development for the SVG/design-to-code generation pipeline.

The definitions below are a shallow embedding of the TypeScript sources:
JavaScript strings are modelled as `List Char` (with `String` wrappers at
the boundary), attribute maps as ordered association lists (JS objects
iterate in insertion order), numbers that only ever hold exact decimal
values as `ℚ`, and fallible code as `Except`/`Option`.  Regex scans in the
source are embedded as explicit character automata whose semantics (derived
from JavaScript left-to-right, non-overlapping global matching) are stated
in the comments next to each definition.  Result caches in the source
(`camelCaseCache`) are pure performance memoisation of pure functions and
are not modelled.
-/

/-! ## Basic character utilities (ASCII, as used by the source regexes) -/

/-- ASCII `[a-z]`, the character class of the `camelCase` regex. -/
def isLowerAscii (c : Char) : Bool := 97 ≤ c.toNat && c.toNat ≤ 122

/-- ASCII `[A-Z]`. -/
def isUpperAscii (c : Char) : Bool := 65 ≤ c.toNat && c.toNat ≤ 90

/-- Regex `\w`, i.e. `[A-Za-z0-9_]`. -/
def isWordChar (c : Char) : Bool :=
  isLowerAscii c || isUpperAscii c || (48 ≤ c.toNat && c.toNat ≤ 57) || c = '_'

/-- `String.prototype.toUpperCase` restricted to the ASCII letters that the
source ever feeds it (regex captures of `[a-z]` and `\w`). -/
def toUpperAscii (c : Char) : Char :=
  if isLowerAscii c then Char.ofNat (c.toNat - 32) else c

/-- `String.prototype.toLowerCase` on ASCII letters; used by the heuristic
name tests (`name.toLowerCase().includes(...)`) of the pattern analyzer. -/
def toLowerAscii (c : Char) : Char :=
  if isUpperAscii c then Char.ofNat (c.toNat + 32) else c

theorem toNat_ofNat_valid (n : Nat) (h : n.isValidChar) : (Char.ofNat n).toNat = n := by
  have h32 : n < 2 ^ 32 := by
    rcases h with h | ⟨_, h⟩ <;> omega
  simp [Char.ofNat, h, Char.ofNatAux, Char.toNat, UInt32.toNat, BitVec.toNat_ofNatLt]

theorem toNat_toUpperAscii (c : Char) (h : isLowerAscii c = true) :
    (toUpperAscii c).toNat = c.toNat - 32 := by
  have hb : 97 ≤ c.toNat ∧ c.toNat ≤ 122 := by
    simpa [isLowerAscii] using h
  have hv : (c.toNat - 32).isValidChar := Or.inl (by omega)
  simp [toUpperAscii, h, toNat_ofNat_valid _ hv]

/-- After upper-casing a lower-case ASCII letter the result is upper-case
ASCII (hence not lower-case, not a dash and not a colon). -/
theorem isUpperAscii_toUpperAscii (c : Char) (h : isLowerAscii c = true) :
    isUpperAscii (toUpperAscii c) = true := by
  have hb : 97 ≤ c.toNat ∧ c.toNat ≤ 122 := by
    simpa [isLowerAscii] using h
  have ht := toNat_toUpperAscii c h
  simp only [isUpperAscii, ht, Bool.and_eq_true, decide_eq_true_eq]
  omega

theorem toUpperAscii_ne_of_lower {c : Char} (h : isLowerAscii c = true)
    {d : Char} (hd : isUpperAscii d = false) : toUpperAscii c ≠ d := by
  intro he
  have h1 := isUpperAscii_toUpperAscii c h
  rw [he, hd] at h1
  exact Bool.false_ne_true h1

/-- Substring membership, modelling `String.prototype.includes` and regex
tests for a literal pattern: some contiguous run of `l` equals `pat`. -/
def occursIn (pat : List Char) : List Char → Bool
  | [] => pat = []
  | x :: rest => pat.isPrefixOf (x :: rest) || occursIn pat rest

/-! ## `camelCase` (svg-to-jsx utils)

`string.replace(/(?:-|_)([a-z])/g, (_, char) => char.toUpperCase())`,
guarded by `string.indexOf('--') === 0` which returns the input unchanged.
The global regex scan replaces each non-overlapping occurrence of a dash or
underscore followed by a lower-case letter, left to right.  The source
memoises results in `camelCaseCache`; the cache is pure memoisation and is
not part of the embedding. -/

def camelCaseGo : List Char → List Char
  | [] => []
  | [c] => [c]
  | c :: d :: rest =>
    if (c = '-' || c = '_') && isLowerAscii d then toUpperAscii d :: camelCaseGo rest
    else c :: camelCaseGo (d :: rest)

def startsWithDashDash : List Char → Bool
  | c :: d :: _ => c = '-' && d = '-'
  | _ => false

def camelCase (l : List Char) : List Char :=
  if startsWithDashDash l then l else camelCaseGo l

/-! ## `processAttributeName` and friends (svg-to-jsx utils) -/

/-- Regex `^data-` with the `i` flag: case-insensitive literal prefix `data-`. -/
def isDataAttr : List Char → Bool
  | a :: b :: c :: d :: e :: _ =>
    (a = 'd' || a = 'D') && (b = 'a' || b = 'A') && (c = 't' || c = 'T') &&
    (d = 'a' || d = 'A') && e = '-'
  | _ => false

/-- Regex `^aria-` with the `i` flag. -/
def isAriaAttr : List Char → Bool
  | a :: b :: c :: d :: e :: _ =>
    (a = 'a' || a = 'A') && (b = 'r' || b = 'R') && (c = 'i' || c = 'I') &&
    (d = 'a' || d = 'A') && e = '-'
  | _ => false

/-- Regex `/^xlink:/i`. -/
def isXlinkAttr : List Char → Bool
  | a :: b :: c :: d :: e :: f :: _ =>
    (a = 'x' || a = 'X') && (b = 'l' || b = 'L') && (c = 'i' || c = 'I') &&
    (d = 'n' || d = 'N') && (e = 'k' || e = 'K') && f = ':'
  | _ => false

/-- Regex `/^xml:/i`. -/
def isXmlAttr : List Char → Bool
  | a :: b :: c :: d :: _ =>
    (a = 'x' || a = 'X') && (b = 'm' || b = 'M') && (c = 'l' || c = 'L') && d = ':'
  | _ => false

/-- The `specialCases` rename table of `processAttributeName`. -/
def specialCases : List (List Char × List Char) :=
  [("class".data, "className".data),
   ("for".data, "htmlFor".data),
   ("xlink:href".data, "xlinkHref".data),
   ("xlink:actuate".data, "xlinkActuate".data),
   ("xlink:arcrole".data, "xlinkArcrole".data),
   ("xlink:role".data, "xlinkRole".data),
   ("xlink:show".data, "xlinkShow".data),
   ("xlink:title".data, "xlinkTitle".data),
   ("xlink:type".data, "xlinkType".data),
   ("xml:lang".data, "xmlLang".data),
   ("xml:space".data, "xmlSpace".data),
   ("xml:base".data, "xmlBase".data)]

def lookupSpecial (name : List Char) : Option (List Char) :=
  (specialCases.find? (fun p => p.1 = name)).map Prod.snd

/-- `unnamespaceAttributeName`: `name.replace(/(\w+):(\w)/i, ...)` replaces
the single leftmost occurrence of a word-run, a colon and one word
character by the run followed by the upper-cased character.  The leftmost
JavaScript match starts at the beginning of the maximal word-run that
immediately precedes the first colon which is both preceded and followed by
a word character.  `run` accumulates the current word-run in reverse. -/
def unnamespaceGo (run : List Char) : List Char → List Char
  | [] => run.reverse
  | c :: rest =>
    if isWordChar c then unnamespaceGo (c :: run) rest
    else if c = ':' then
      match run, rest with
      | _ :: _, d :: rest2 =>
        if isWordChar d then run.reverse ++ toUpperAscii d :: rest2
        else run.reverse ++ ':' :: unnamespaceGo [] rest
      | _, _ => run.reverse ++ ':' :: unnamespaceGo [] rest
    else run.reverse ++ c :: unnamespaceGo [] rest

def unnamespaceAttributeName (name : List Char) : List Char :=
  unnamespaceGo [] name

/-- `processAttributeName` from the svg-to-jsx utilities: data/aria names
pass through, the rename table handles the special cases, namespaced names
are un-namespaced, everything else is camel-cased. -/
def processAttributeName (name : List Char) : List Char :=
  if isDataAttr name || isAriaAttr name then name
  else
    match lookupSpecial name with
    | some v => v
    | none =>
      if isXlinkAttr name || isXmlAttr name then unnamespaceAttributeName name
      else camelCase name

/-- String-level wrapper for `processAttributeName`. -/
def processAttributeNameS (s : String) : String := ⟨processAttributeName s.data⟩

example : processAttributeNameS "fill-opacity" = "fillOpacity" := by decide
example : processAttributeNameS "class" = "className" := by decide
example : processAttributeNameS "xlink:href" = "xlinkHref" := by decide
example : processAttributeNameS "data-test" = "data-test" := by decide
example : processAttributeNameS "xlink:a-b" = "xlinkA-b" := by decide
example : processAttributeNameS "xlinkA-b" = "xlinkAB" := by decide

/-! ## Idempotence analysis of attribute-name translation -/

/-- `pairOk x y?` holds when `x` followed by `y?` is not a replaceable
dash/underscore + lower-case pair. -/
def pairOk (x : Char) : Option Char → Bool
  | none => true
  | some y => !((x = '-' || x = '_') && isLowerAscii y)

/-- No occurrence of a dash or underscore followed by a lower-case ASCII
letter: exactly the strings on which the `camelCase` regex finds no match. -/
def noKebab : List Char → Bool
  | [] => true
  | x :: l => pairOk x l.head? && noKebab l

theorem lower_false_of_upper {c : Char} (h : isUpperAscii c = true) :
    isLowerAscii c = false := by
  simp only [isUpperAscii, Bool.and_eq_true, decide_eq_true_eq] at h
  simp only [isLowerAscii, Bool.and_eq_false_iff, decide_eq_false_iff_not]
  omega

theorem camelCaseGo_of_noKebab (l : List Char) (h : noKebab l = true) :
    camelCaseGo l = l := by
  induction l using camelCaseGo.induct with
  | case1 => rfl
  | case2 c => rfl
  | case3 c d rest hcond ih =>
    exfalso
    simp only [noKebab, List.head?_cons, pairOk, Bool.and_eq_true, Bool.not_eq_true'] at h
    rw [h.1] at hcond
    exact absurd hcond (by decide)
  | case4 c d rest hcond ih =>
    simp only [noKebab, Bool.and_eq_true] at h
    simp only [camelCaseGo]
    rw [if_neg hcond, ih (by simp only [noKebab, Bool.and_eq_true]; exact h.2)]

theorem camelCaseGo_cons_head (x : Char) (m : List Char) :
    (camelCaseGo (x :: m)).head? = some x ∨
      ∃ d, isLowerAscii d = true ∧ (camelCaseGo (x :: m)).head? = some (toUpperAscii d) := by
  match m with
  | [] => left; rfl
  | d :: rest =>
    simp only [camelCaseGo]
    by_cases hc : ((x = '-' || x = '_') && isLowerAscii d) = true
    · right
      exact ⟨d, (Bool.and_eq_true _ _).mp hc |>.2, by rw [if_pos hc, List.head?_cons]⟩
    · left
      rw [if_neg hc, List.head?_cons]

theorem noKebab_camelCaseGo (l : List Char) : noKebab (camelCaseGo l) = true := by
  induction l using camelCaseGo.induct with
  | case1 => rfl
  | case2 c => rfl
  | case3 c d rest hcond ih =>
    simp only [camelCaseGo]
    rw [if_pos hcond]
    have hd : isLowerAscii d = true := ((Bool.and_eq_true _ _).mp hcond).2
    have hup := isUpperAscii_toUpperAscii d hd
    simp only [noKebab, Bool.and_eq_true]
    refine ⟨?_, ih⟩
    rcases hh : (camelCaseGo rest).head? with _ | y
    · rfl
    · simp only [pairOk, Bool.not_eq_true', Bool.and_eq_false_iff]
      left
      simp only [Bool.or_eq_false_iff, decide_eq_false_iff_not]
      constructor
      · intro he; rw [he] at hup; exact absurd hup (by decide)
      · intro he; rw [he] at hup; exact absurd hup (by decide)
  | case4 c d rest hcond ih =>
    simp only [camelCaseGo]
    rw [if_neg hcond]
    simp only [noKebab, Bool.and_eq_true]
    refine ⟨?_, ih⟩
    rcases camelCaseGo_cons_head d rest with hh | ⟨e, he, hh⟩
    · rw [hh]
      simp only [pairOk, Bool.not_eq_true']
      exact Bool.eq_false_iff.mpr hcond
    · rw [hh]
      have hup := isUpperAscii_toUpperAscii e he
      simp only [pairOk, Bool.not_eq_true', Bool.and_eq_false_iff]
      right
      exact lower_false_of_upper hup

theorem camelCaseGo_not_dashdash (l : List Char) (h : startsWithDashDash l = false) :
    startsWithDashDash (camelCaseGo l) = false := by
  match l with
  | [] => rfl
  | [c] => rfl
  | c :: d :: rest =>
    simp only [camelCaseGo]
    by_cases hc : ((c = '-' || c = '_') && isLowerAscii d) = true
    · rw [if_pos hc]
      have hd : isLowerAscii d = true := ((Bool.and_eq_true _ _).mp hc).2
      have hne : toUpperAscii d ≠ '-' := toUpperAscii_ne_of_lower hd (by decide)
      rcases ho : camelCaseGo rest with _ | ⟨y, t⟩
      · rfl
      · show (decide (toUpperAscii d = '-') && decide (y = '-')) = false
        simp [hne]
    · rw [if_neg hc]
      rcases ho : camelCaseGo (d :: rest) with _ | ⟨y, t⟩
      · rfl
      · show (decide (c = '-') && decide (y = '-')) = false
        by_cases hcd : c = '-'
        · have hdne : d ≠ '-' := by
            intro he
            rw [hcd, he] at h
            exact absurd h (by simp [startsWithDashDash])
          rcases camelCaseGo_cons_head d rest with hh | ⟨e, he, hh⟩
          · rw [ho, List.head?_cons, Option.some_inj] at hh
            subst hh
            simp [hdne]
          · rw [ho, List.head?_cons, Option.some_inj] at hh
            subst hh
            simp [toUpperAscii_ne_of_lower he (show isUpperAscii '-' = false by decide)]
        · simp [hcd]

theorem camelCase_idem (l : List Char) : camelCase (camelCase l) = camelCase l := by
  by_cases h : startsWithDashDash l = true
  · have h1 : camelCase l = l := by rw [camelCase, if_pos h]
    rw [h1]
    exact h1
  · have h' : startsWithDashDash l = false := Bool.eq_false_iff.mpr h
    have h1 : camelCase l = camelCaseGo l := by rw [camelCase, if_neg h]
    rw [h1, camelCase, if_neg (by rw [camelCaseGo_not_dashdash l h']; exact Bool.false_ne_true)]
    exact camelCaseGo_of_noKebab _ (noKebab_camelCaseGo l)

theorem colon_mem_of_isXlinkAttr {l : List Char} (h : isXlinkAttr l = true) : ':' ∈ l := by
  rcases l with _ | ⟨a, _ | ⟨b, _ | ⟨c, _ | ⟨d, _ | ⟨e, _ | ⟨f, rest⟩⟩⟩⟩⟩⟩
  · exact absurd h Bool.false_ne_true
  · exact absurd h Bool.false_ne_true
  · exact absurd h Bool.false_ne_true
  · exact absurd h Bool.false_ne_true
  · exact absurd h Bool.false_ne_true
  · exact absurd h Bool.false_ne_true
  · simp only [isXlinkAttr, Bool.and_eq_true, decide_eq_true_eq] at h
    obtain ⟨-, hf⟩ := h
    subst hf
    simp

theorem colon_mem_of_isXmlAttr {l : List Char} (h : isXmlAttr l = true) : ':' ∈ l := by
  rcases l with _ | ⟨a, _ | ⟨b, _ | ⟨c, _ | ⟨d, rest⟩⟩⟩⟩
  · exact absurd h Bool.false_ne_true
  · exact absurd h Bool.false_ne_true
  · exact absurd h Bool.false_ne_true
  · exact absurd h Bool.false_ne_true
  · simp only [isXmlAttr, Bool.and_eq_true, decide_eq_true_eq] at h
    obtain ⟨-, hd⟩ := h
    subst hd
    simp

theorem colon_mem_of_mem_camelCaseGo {l : List Char} (h : ':' ∈ camelCaseGo l) : ':' ∈ l := by
  induction l using camelCaseGo.induct with
  | case1 => exact absurd h (List.not_mem_nil _)
  | case2 c => exact h
  | case3 c d rest hcond ih =>
    simp only [camelCaseGo] at h
    rw [if_pos hcond] at h
    have hd := ((Bool.and_eq_true _ _).mp hcond).2
    rcases List.mem_cons.mp h with he | hm
    · exact absurd he.symm (toUpperAscii_ne_of_lower hd (by decide))
    · exact List.mem_cons_of_mem _ (List.mem_cons_of_mem _ (ih hm))
  | case4 c d rest hcond ih =>
    simp only [camelCaseGo] at h
    rw [if_neg hcond] at h
    rcases List.mem_cons.mp h with he | hm
    · exact he ▸ List.mem_cons_self _ _
    · exact List.mem_cons_of_mem _ (ih hm)

theorem camelCaseGo_eq_of_all_lower (l : List Char) : ∀ (k : List Char),
    (∀ c ∈ k, isLowerAscii c = true) → camelCaseGo l = k → l = k := by
  induction l using camelCaseGo.induct with
  | case1 => intro k _ h; exact h
  | case2 c => intro k _ h; exact h
  | case3 c d rest hcond ih =>
    intro k hk h
    exfalso
    simp only [camelCaseGo] at h
    rw [if_pos hcond] at h
    have hd := ((Bool.and_eq_true _ _).mp hcond).2
    have hup := isUpperAscii_toUpperAscii d hd
    have hmem : toUpperAscii d ∈ k := h ▸ List.mem_cons_self _ _
    have hlow := hk _ hmem
    rw [lower_false_of_upper hup] at hlow
    exact absurd hlow (by decide)
  | case4 c d rest hcond ih =>
    intro k hk h
    simp only [camelCaseGo] at h
    rw [if_neg hcond] at h
    rcases k with _ | ⟨kh, kt⟩
    · exact absurd h (by simp)
    · obtain ⟨h1, h2⟩ := List.cons_eq_cons.mp h
      rw [h1, ih kt (fun c hm => hk c (List.mem_cons_of_mem _ hm)) h2]

theorem eq_of_camelCase_all_lower (l k : List Char)
    (hk : ∀ c ∈ k, isLowerAscii c = true) (h : camelCase l = k) : l = k := by
  rw [camelCase] at h
  split at h
  · exact h
  · exact camelCaseGo_eq_of_all_lower l k hk h

theorem lookupSpecial_cases {name v : List Char} (h : lookupSpecial name = some v) :
    (name = "class".data ∧ v = "className".data) ∨
      (name = "for".data ∧ v = "htmlFor".data) ∨ ':' ∈ name := by
  simp only [lookupSpecial, Option.map_eq_some'] at h
  obtain ⟨p, hp, hv⟩ := h
  have hmem := List.mem_of_find?_eq_some hp
  have hpred := List.find?_some hp
  simp only [decide_eq_true_eq] at hpred
  subst hv
  simp only [specialCases, List.mem_cons, List.not_mem_nil, or_false] at hmem
  rcases hmem with rfl | rfl | rfl | rfl | rfl | rfl | rfl | rfl | rfl | rfl | rfl | rfl
  · exact Or.inl ⟨hpred.symm, rfl⟩
  · exact Or.inr (Or.inl ⟨hpred.symm, rfl⟩)
  · exact Or.inr (Or.inr (hpred ▸ (by decide)))
  · exact Or.inr (Or.inr (hpred ▸ (by decide)))
  · exact Or.inr (Or.inr (hpred ▸ (by decide)))
  · exact Or.inr (Or.inr (hpred ▸ (by decide)))
  · exact Or.inr (Or.inr (hpred ▸ (by decide)))
  · exact Or.inr (Or.inr (hpred ▸ (by decide)))
  · exact Or.inr (Or.inr (hpred ▸ (by decide)))
  · exact Or.inr (Or.inr (hpred ▸ (by decide)))
  · exact Or.inr (Or.inr (hpred ▸ (by decide)))
  · exact Or.inr (Or.inr (hpred ▸ (by decide)))

theorem processAttributeName_idem (name : List Char) (hc : ':' ∉ name) :
    processAttributeName (processAttributeName name) = processAttributeName name := by
  by_cases hda : (isDataAttr name || isAriaAttr name) = true
  · have h1 : processAttributeName name = name := by
      rw [processAttributeName, if_pos hda]
    rw [h1]
    exact h1
  · cases hsp : lookupSpecial name with
    | some v =>
      have h1 : processAttributeName name = v := by
        rw [processAttributeName, if_neg hda, hsp]
      rcases lookupSpecial_cases hsp with ⟨hn, hv⟩ | ⟨hn, hv⟩ | hcol
      · subst hv; rw [h1]; decide
      · subst hv; rw [h1]; decide
      · exact absurd hcol hc
    | none =>
      by_cases hx : (isXlinkAttr name || isXmlAttr name) = true
      · exfalso
        rcases (Bool.or_eq_true _ _).mp hx with h | h
        · exact hc (colon_mem_of_isXlinkAttr h)
        · exact hc (colon_mem_of_isXmlAttr h)
      · have h1 : processAttributeName name = camelCase name := by
          rw [processAttributeName, if_neg hda, hsp, if_neg hx]
        rw [h1]
        have hoc : ':' ∉ camelCase name := by
          rw [camelCase]
          split
          · exact hc
          · exact fun hm => hc (colon_mem_of_mem_camelCaseGo hm)
        by_cases hdo : (isDataAttr (camelCase name) || isAriaAttr (camelCase name)) = true
        · rw [processAttributeName, if_pos hdo]
        · cases hso : lookupSpecial (camelCase name) with
          | some v =>
            exfalso
            rcases lookupSpecial_cases hso with ⟨hn, hv⟩ | ⟨hn, hv⟩ | hcol
            · have hnm : name = "class".data :=
                eq_of_camelCase_all_lower name _ (by decide) hn
              rw [hnm] at hsp
              exact absurd hsp (by decide)
            · have hnm : name = "for".data :=
                eq_of_camelCase_all_lower name _ (by decide) hn
              rw [hnm] at hsp
              exact absurd hsp (by decide)
            · exact hoc hcol
          | none =>
            by_cases hxo : (isXlinkAttr (camelCase name) || isXmlAttr (camelCase name)) = true
            · exfalso
              rcases (Bool.or_eq_true _ _).mp hxo with h | h
              · exact hoc (colon_mem_of_isXlinkAttr h)
              · exact hoc (colon_mem_of_isXmlAttr h)
            · rw [processAttributeName, if_neg hdo, hso, if_neg hxo]
              exact camelCase_idem name

/-- C8 counterexample input: translating the namespaced attribute name
`xlink:a-b` yields `xlinkA-b`, and translating that again yields `xlinkAB`,
so translation is not idempotent on this name. -/
theorem C8_counterexample_xlink_dash :
    processAttributeNameS (processAttributeNameS "xlink:a-b") ≠ processAttributeNameS "xlink:a-b" := by
  decide

/-- C8 (amended): attribute-name translation is idempotent for every
attribute name that contains no colon; namespaced (`xlink:`/`xml:`) names
whose remainder still contains a kebab/snake segment are translated further
by a second application. -/
theorem C8_translate_idempotent_of_no_colon (s : String) (hc : ':' ∉ s.data) :
    processAttributeNameS (processAttributeNameS s) = processAttributeNameS s :=
  congrArg String.mk (processAttributeName_idem s.data hc)

theorem C8_witness : ':' ∉ "fill-opacity".data ∧
    processAttributeNameS (processAttributeNameS "fill-opacity") = processAttributeNameS "fill-opacity" :=
  ⟨by decide, C8_translate_idempotent_of_no_colon "fill-opacity" (by decide)⟩

/-! ## JavaScript values and style parsing (svg-to-jsx utils) -/

/-- A parsed style-object value: `parseStyleString` only ever stores the
trimmed value text, either coerced to a number or kept as a string. -/
inductive StyleVal where
  | sNum : String → StyleVal
  | sStr : String → StyleVal
deriving DecidableEq

/-- A JavaScript attribute value as it flows through sanitization: `null` or
`undefined`, a string, a number (kept as its exact decimal source text), or
a parsed style object. -/
inductive JsVal where
  | vNull : JsVal
  | vStr : String → JsVal
  | vNum : String → JsVal
  | vStyle : List (String × StyleVal) → JsVal
deriving DecidableEq

/-- JavaScript truthiness for the values above (`0` is the only falsy
number text that reaches the sanitizer). -/
def truthy : JsVal → Bool
  | JsVal.vNull => false
  | JsVal.vStr s => s ≠ ""
  | JsVal.vNum d => d ≠ "0"
  | JsVal.vStyle _ => true

/-- JS whitespace as matched by the style-splitting regexes. -/
def isWsChar (c : Char) : Bool :=
  c = ' ' || c = '\t' || c = '\n' || c = '\r' || c = '\x0b' || c = '\x0c'

/-- `String.prototype.trim`. -/
def jsTrim (l : List Char) : List Char :=
  ((l.dropWhile isWsChar).reverse.dropWhile isWsChar).reverse

/-- Split a character list at every occurrence of `sep`. -/
def splitOnChar (sep : Char) : List Char → List (List Char)
  | [] => [[]]
  | c :: rest =>
    let r := splitOnChar sep rest
    if c = sep then [] :: r
    else
      match r with
      | [] => [[c]]
      | piece :: more => (c :: piece) :: more

def isDigitAscii (c : Char) : Bool := 48 ≤ c.toNat && c.toNat ≤ 57

/-- The numeric-literal test of `parseStyleString`, regex `\d+(\.\d+)?`
anchored on both sides. -/
def isNumericLit (l : List Char) : Bool :=
  let ds := l.takeWhile isDigitAscii
  let rest := l.dropWhile isDigitAscii
  ds ≠ [] &&
    (rest = [] ||
      (rest.head? = some '.' && rest.tail ≠ [] && rest.tail.all isDigitAscii))

/-- `cssProperty`: strip a literal leading `-ms` and camel-case. -/
def cssProperty (l : List Char) : List Char :=
  camelCase
    (match l with
     | '-' :: 'm' :: 's' :: rest => 'm' :: 's' :: rest
     | other => other)

/-- One `prop: value` declaration of `parseStyleString`.  The source splits
on the regex `\s*:\s*` and rejoins the value parts with `:`; since the
property is trimmed before camel-casing and the value is trimmed after the
join, splitting on the bare colon and trimming both sides is equivalent. -/
def parseDeclaration (decl : List Char) : Option (String × StyleVal) :=
  match splitOnChar ':' decl with
  | [] => none
  | prop :: valueParts =>
    if prop.isEmpty || valueParts.isEmpty then none
    else
      let value := jsTrim (List.intercalate [':'] (valueParts.map jsTrim))
      let camelProperty := cssProperty (jsTrim prop)
      if isNumericLit value then some (⟨camelProperty⟩, StyleVal.sNum ⟨value⟩)
      else some (⟨camelProperty⟩, StyleVal.sStr ⟨value⟩)

/-- JS object property assignment on an insertion-ordered association list:
overwrite in place when the key exists, append otherwise. -/
def jsSet {α : Type} (m : List (String × α)) (k : String) (v : α) : List (String × α) :=
  if m.any (fun p => p.1 = k) then m.map (fun p => if p.1 = k then (k, v) else p)
  else m ++ [(k, v)]

/-- `parseStyleString` on a character list. -/
def parseStyleStringL (style : List Char) : List (String × StyleVal) :=
  let pieces := ((splitOnChar ';' style).map jsTrim).filter (fun p => !p.isEmpty)
  pieces.foldl
    (fun styles decl =>
      match parseDeclaration decl with
      | some (k, v) => jsSet styles k v
      | none => styles) []

/-- `parseStyleString` from the svg-to-jsx utilities: non-string or empty
input yields the empty object. -/
def parseStyleString : JsVal → List (String × StyleVal)
  | JsVal.vStr s => if s = "" then [] else parseStyleStringL s.data
  | _ => []

/-! ## Security allow-lists and sanitization (svg-to-jsx utils) -/

def ALLOWED_HTML_ATTRIBUTES : List String :=
  ["accept", "acceptCharset", "accessKey", "action", "allowFullScreen", "allowTransparency",
   "alt", "async", "autoComplete", "autoFocus", "autoPlay", "cellPadding", "cellSpacing",
   "charSet", "checked", "classID", "className", "colSpan", "cols", "content", "contentEditable",
   "contextMenu", "controls", "coords", "crossOrigin", "data", "dateTime", "defer", "dir",
   "disabled", "download", "draggable", "encType", "form", "formAction", "formEncType",
   "formMethod", "formNoValidate", "formTarget", "frameBorder", "headers", "height", "hidden",
   "high", "href", "hrefLang", "htmlFor", "httpEquiv", "icon", "id", "label", "lang", "list",
   "loop", "low", "manifest", "marginHeight", "marginWidth", "max", "maxLength", "media",
   "mediaGroup", "method", "min", "multiple", "muted", "name", "noValidate", "open", "optimum",
   "pattern", "placeholder", "poster", "preload", "radioGroup", "readOnly", "rel", "required",
   "role", "rowSpan", "rows", "sandbox", "scope", "scoped", "scrolling", "seamless", "selected",
   "shape", "size", "sizes", "span", "spellCheck", "src", "srcDoc", "srcSet", "start", "step",
   "style", "tabIndex", "target", "title", "type", "useMap", "value", "width", "wmode"]

def ALLOWED_SVG_ATTRIBUTES : List String :=
  ["clipPath", "cx", "cy", "d", "dx", "dy", "fill", "fillOpacity", "fontFamily", "fillRule",
   "fontSize", "fx", "fy", "gradientTransform", "gradientUnits", "markerEnd", "markerMid",
   "markerStart", "offset", "opacity", "patternContentUnits", "patternUnits", "points",
   "preserveAspectRatio", "r", "rx", "ry", "spreadMethod", "stopColor", "stopOpacity", "stroke",
   "strokeDasharray", "strokeLinecap", "strokeLinejoin", "strokeMiterlimit", "strokeOpacity",
   "strokeWidth", "textAnchor", "transform", "vectorEffect", "version", "viewBox", "xmlns",
   "x1", "x2", "x", "y1", "y2", "y", "xlinkActuate", "xlinkArcrole", "xlinkHref", "xlinkRole",
   "xlinkShow", "xlinkTitle", "xlinkType", "xmlBase", "xmlLang", "xmlSpace", "mask", "maskUnits",
   "filter", "filterUnits", "filterRes", "result", "in", "in2", "stdDeviation",
   "colorInterpolationFilters", "floodOpacity", "primitiveUnits", "baseFrequency", "numOctaves",
   "seed", "stitchTiles", "type", "values", "tableValues", "slope", "intercept", "amplitude",
   "exponent", "k1", "k2", "k3", "k4"]

/-- `ALLOWED_ATTRIBUTES = new Set([...html, ...svg])`; membership in the
set equals membership in the concatenated list. -/
def ALLOWED_ATTRIBUTES : List String := ALLOWED_HTML_ATTRIBUTES ++ ALLOWED_SVG_ATTRIBUTES

def ALLOWED_TAGS : List String :=
  ["circle", "clipPath", "defs", "ellipse", "g", "image", "line", "linearGradient", "mask",
   "path", "pattern", "polygon", "polyline", "radialGradient", "rect", "stop", "svg", "text",
   "use", "tspan", "title", "style", "filter", "feFlood", "feBlend", "feGaussianBlur",
   "feOffset", "feColorMatrix", "feMorphology", "feConvolveMatrix", "feDropShadow",
   "foreignObject", "switch", "symbol", "marker", "textPath", "animate", "animateTransform"]

/-- `value == null || value === ''`: the skip test of `sanitizeAttributes`
(`undefined` and `null` are identified in the embedding). -/
def isNullOrEmptyStr : JsVal → Bool
  | JsVal.vNull => true
  | JsVal.vStr s => s = ""
  | _ => false

/-- One iteration of the `Object.keys(attributes).forEach` loop body of
`sanitizeAttributes`, acting on the result object built so far. -/
def sanitizeStep (result : List (String × JsVal)) (p : String × JsVal) : List (String × JsVal) :=
  let name := p.1
  let value := p.2
  if isNullOrEmptyStr value then result
  else if isDataAttr name.data || isAriaAttr name.data then jsSet result name value
  else if name = "class" then result
  else if ALLOWED_ATTRIBUTES.contains name then
    let processedName := processAttributeNameS name
    if name = "style" then jsSet result processedName (JsVal.vStyle (parseStyleString value))
    else jsSet result processedName value
  else result

/-- `sanitizeAttributes`: the attribute object is an insertion-ordered
association list; a truthy `class` value is first promoted to `className`,
then every attribute is processed in order by `sanitizeStep`. -/
def sanitizeAttributes (attrs : List (String × JsVal)) : List (String × JsVal) :=
  let init : List (String × JsVal) :=
    match attrs.find? (fun p => p.1 = "class") with
    | some p => if truthy p.2 then [("className", p.2)] else []
    | none => []
  attrs.foldl sanitizeStep init

/-- A child element as inspected by `sanitizeChildren`: only the `tagName`
and `name` fields are consulted; `none` models a missing field and an
optional child models a falsy array entry. -/
structure ChildNode where
  tagName : Option String
  name : Option String
deriving DecidableEq

/-- `child.tagName || child.name` with JavaScript falsy fallback. -/
def effectiveTag (c : ChildNode) : Option String :=
  match c.tagName with
  | some t => if t = "" then c.name else some t
  | none => c.name

/-- `sanitizeChildren`: keep exactly the truthy children whose effective
tag is in the fixed tag allow-list. -/
def sanitizeChildren (children : List (Option ChildNode)) : List (Option ChildNode) :=
  children.filter (fun oc =>
    match oc with
    | none => false
    | some c =>
      match effectiveTag c with
      | some t => ALLOWED_TAGS.contains t
      | none => false)

theorem mem_jsSet {α : Type} {m : List (String × α)} {k' : String} {v' : α}
    {p : String × α} (h : p ∈ jsSet m k' v') : p ∈ m ∨ p.1 = k' := by
  unfold jsSet at h
  split at h
  · rcases List.mem_map.mp h with ⟨q, hq, he⟩
    by_cases hqk : q.1 = k'
    · right
      rw [← he]
      simp [hqk]
    · left
      rw [← he]
      simp [hqk]
      exact hq
  · rcases List.mem_append.mp h with hm | hm
    · exact Or.inl hm
    · right
      rw [List.mem_singleton.mp hm]

/-- Every name in the fixed attribute allow-list is already in translated
form: `processAttributeName` fixes each of them. -/
theorem processed_allowed_fixed :
    ALLOWED_ATTRIBUTES.all (fun n => processAttributeNameS n = n) = true := by decide

theorem sanitize_fold_keys (attrs : List (String × JsVal)) :
    ∀ (m : List (String × JsVal)),
      (∀ p ∈ m, isDataAttr p.1.data = true ∨ isAriaAttr p.1.data = true ∨
        p.1 ∈ ALLOWED_ATTRIBUTES) →
      ∀ p ∈ attrs.foldl sanitizeStep m,
        isDataAttr p.1.data = true ∨ isAriaAttr p.1.data = true ∨ p.1 ∈ ALLOWED_ATTRIBUTES := by
  induction attrs with
  | nil => intro m hm p hp; exact hm p hp
  | cons q rest ih =>
    intro m hm p hp
    rw [List.foldl_cons] at hp
    refine ih (sanitizeStep m q) ?_ p hp
    intro r hr
    simp only [sanitizeStep] at hr
    split at hr
    · exact hm r hr
    · split at hr
      · rename_i hda
        rcases mem_jsSet hr with hrm | hrk
        · exact hm r hrm
        · rw [hrk]
          rcases (Bool.or_eq_true _ _).mp hda with h | h
          · exact Or.inl h
          · exact Or.inr (Or.inl h)
      · split at hr
        · exact hm r hr
        · split at hr
          · rename_i hallow
            have hfix : processAttributeNameS q.1 = q.1 := by
              have hmem : q.1 ∈ ALLOWED_ATTRIBUTES := by
                simpa using hallow
              have := List.all_eq_true.mp processed_allowed_fixed _ hmem
              simpa using this
            split at hr
            · rcases mem_jsSet hr with hrm | hrk
              · exact hm r hrm
              · rw [hrk, hfix]
                exact Or.inr (Or.inr (by simpa using hallow))
            · rcases mem_jsSet hr with hrm | hrk
              · exact hm r hrm
              · rw [hrk, hfix]
                exact Or.inr (Or.inr (by simpa using hallow))
          · exact hm r hr

/-- C2: sanitization is a fixed allow-list filter.  Every attribute
retained by `sanitizeAttributes` is a `data-`/`aria-` attribute or belongs
to the fixed attribute allow-list; every child retained by
`sanitizeChildren` has its effective tag in the fixed tag allow-list; and
`script` is not an allowed tag.  Neither function takes any configuration
input, so no option can bypass the filter. -/
theorem C2_sanitization_allowlist :
    (∀ (attrs : List (String × JsVal)) (p : String × JsVal), p ∈ sanitizeAttributes attrs →
        isDataAttr p.1.data = true ∨ isAriaAttr p.1.data = true ∨ p.1 ∈ ALLOWED_ATTRIBUTES) ∧
    (∀ (children : List (Option ChildNode)) (oc : Option ChildNode), oc ∈ sanitizeChildren children →
        ∃ c t, oc = some c ∧ effectiveTag c = some t ∧ t ∈ ALLOWED_TAGS) ∧
    "script" ∉ ALLOWED_TAGS := by
  refine ⟨?_, ?_, by decide⟩
  · intro attrs p hp
    unfold sanitizeAttributes at hp
    refine sanitize_fold_keys attrs _ ?_ p hp
    intro r hr
    split at hr
    · split at hr
      · rw [List.mem_singleton.mp hr]
        refine Or.inr (Or.inr ?_)
        show ("className" : String) ∈ ALLOWED_ATTRIBUTES
        decide
      · exact absurd hr (List.not_mem_nil _)
    · exact absurd hr (List.not_mem_nil _)
  · intro children oc hoc
    obtain ⟨hmem, hpred⟩ := List.mem_filter.mp hoc
    rcases oc with _ | c
    · exact absurd hpred (by simp)
    · simp only at hpred
      rcases ht : effectiveTag c with _ | t
      · rw [ht] at hpred
        exact absurd hpred Bool.false_ne_true
      · rw [ht] at hpred
        exact ⟨c, t, rfl, ht, List.elem_iff.mp hpred⟩

theorem C2_witness :
    (isDataAttr "fill".data = true ∨ isAriaAttr "fill".data = true ∨
      ("fill" : String) ∈ ALLOWED_ATTRIBUTES) ∧
    (∃ c t, (some (ChildNode.mk (some "rect") none) : Option ChildNode) = some c ∧
      effectiveTag c = some t ∧ t ∈ ALLOWED_TAGS) :=
  ⟨C2_sanitization_allowlist.1
      [("onclick", JsVal.vStr "evil()"), ("fill", JsVal.vStr "red")]
      ("fill", JsVal.vStr "red") (by decide),
   C2_sanitization_allowlist.2.1
      [some (ChildNode.mk (some "script") none), some (ChildNode.mk (some "rect") none)]
      (some (ChildNode.mk (some "rect") none)) (by decide)⟩

/-! ## Quality assessment (services/code-generation/QualityAssessor.ts)

Only the configuration fields that the assessor reads are modelled.
Scores are exact rationals; every score in the source is integer-valued and
the single division (the overall mean) is exact, so `ℚ` is a faithful model
of the JavaScript numbers involved. -/

structure OptimizationConfig where
  treeshaking : Bool
  codesplitting : Bool
  lazyLoading : Bool
deriving DecidableEq

structure TestingConfig where
  unitTests : Bool
deriving DecidableEq

structure CodeGenerationConfig where
  typescript : Bool
  optimization : OptimizationConfig
  testing : TestingConfig
deriving DecidableEq

/-- The adapted-code record as read by the assessor: `componentCode` when
it is a string (`none` models a non-string value) and `styleCode` with its
falsy fallback to the empty string. -/
structure AdaptedCode where
  componentCode : Option String
  styleCode : Option String
deriving DecidableEq

/-- `typeof code.componentCode === 'string' ? code.componentCode : ''`. -/
def codeStringOf (code : AdaptedCode) : String := code.componentCode.getD ""

/-- Regex test `\/\*|\/\/` for comments. -/
def hasCommentsIn (codeString : String) : Bool :=
  occursIn "/*".data codeString.data || occursIn "//".data codeString.data

/-- `config.typescript && codeString.includes('interface')`. -/
def hasTypeScriptIn (codeString : String) (config : CodeGenerationConfig) : Bool :=
  config.typescript && occursIn "interface".data codeString.data

/-- Regex test `aria-|role=|alt=`. -/
def hasAccessibilityIn (codeString : String) : Bool :=
  occursIn "aria-".data codeString.data || occursIn "role=".data codeString.data ||
    occursIn "alt=".data codeString.data

/-- Regex test `@media|rem|em|%` on `code.styleCode || ''`. -/
def hasResponsiveIn (styleCode : String) : Bool :=
  occursIn "@media".data styleCode.data || occursIn "rem".data styleCode.data ||
    occursIn "em".data styleCode.data || occursIn "%".data styleCode.data

def calculateVisualScore (_code : AdaptedCode) : ℚ := 85

def calculateCodeScore (codeString : String) (config : CodeGenerationConfig) : ℚ :=
  let score : ℚ := 70 +
    (if config.typescript && occursIn "interface".data codeString.data then 15 else 0) +
    (if occursIn "React.FC".data codeString.data || occursIn "function".data codeString.data
      then 10 else 0) +
    (if hasCommentsIn codeString then 5 else 0)
  min score 100

def calculatePerformanceScore (_code : AdaptedCode) (config : CodeGenerationConfig) : ℚ :=
  let score : ℚ := 75 +
    (if config.optimization.treeshaking then 8 else 0) +
    (if config.optimization.codesplitting then 8 else 0) +
    (if config.optimization.lazyLoading then 9 else 0)
  min score 100

def calculateSecurityScore (codeString : String) : ℚ :=
  let score : ℚ := 90 -
    (if occursIn "dangerouslySetInnerHTML".data codeString.data then 20 else 0) -
    (if occursIn "eval(".data codeString.data then 30 else 0) -
    (if occursIn "document.write".data codeString.data then 25 else 0)
  max score 0

structure QualityCategories where
  visual : ℚ
  code : ℚ
  performance : ℚ
  accessibility : ℚ
  maintainability : ℚ
  security : ℚ
deriving DecidableEq

structure QualityIssue where
  level : String
  message : String
  category : String
deriving DecidableEq

structure QualityAssessment where
  overall : ℚ
  categories : QualityCategories
  issues : List QualityIssue
  recommendations : List String
  aiSuggestions : List String
deriving DecidableEq

/-- `performQualityAssessment` from `QualityAssessor`.  `categories` has
six entries, and `overall` is their sum divided by
`Object.keys(categories).length = 6`. -/
def performQualityAssessment (code : AdaptedCode) (config : CodeGenerationConfig) :
    QualityAssessment :=
  let codeString := codeStringOf code
  let hasTypeScript := hasTypeScriptIn codeString config
  let hasAccessibility := hasAccessibilityIn codeString
  let hasResponsive := hasResponsiveIn (code.styleCode.getD "")
  let hasTests := config.testing.unitTests
  let hasComments := hasCommentsIn codeString
  let categories : QualityCategories :=
    { visual := calculateVisualScore code
      code := calculateCodeScore codeString config
      performance := calculatePerformanceScore code config
      accessibility := if hasAccessibility then 95 else 60
      maintainability := (if hasComments then 40 else 20) + (if hasTypeScript then 30 else 10) +
        (if hasTests then 30 else 0)
      security := calculateSecurityScore codeString }
  let overall := (categories.visual + categories.code + categories.performance +
    categories.accessibility + categories.maintainability + categories.security) / 6
  let issues :=
    if !hasAccessibility then
      [QualityIssue.mk "warning" "Missing accessibility attributes" "accessibility"]
    else []
  let recommendations :=
    (if !hasTypeScript && config.typescript then
      ["Enable TypeScript for better type safety"] else []) ++
    (if !hasResponsive then ["Add responsive design patterns"] else [])
  { overall := overall
    categories := categories
    issues := issues
    recommendations := recommendations
    aiSuggestions := recommendations }

/-- The all-signals-absent configuration used by counterexamples. -/
def cfgBare : CodeGenerationConfig :=
  CodeGenerationConfig.mk false (OptimizationConfig.mk false false false) (TestingConfig.mk false)

/-- The empty artifact used by counterexamples. -/
def codeBare : AdaptedCode := AdaptedCode.mk (some "") (some "")

/-- On the bare artifact the six category scores evaluate to
85/70/75/60/30/90. -/
theorem qaBare_categories :
    (performQualityAssessment codeBare cfgBare).categories =
      QualityCategories.mk 85 70 75 60 30 90 := by
  have h1 : hasCommentsIn (codeStringOf codeBare) = false := by decide
  have h2 : hasTypeScriptIn (codeStringOf codeBare) cfgBare = false := by decide
  have h3 : hasAccessibilityIn (codeStringOf codeBare) = false := by decide
  have h4 : occursIn "React.FC".data (codeStringOf codeBare).data = false := by decide
  have h5 : occursIn "function".data (codeStringOf codeBare).data = false := by decide
  have h6 : occursIn "interface".data (codeStringOf codeBare).data = false := by decide
  have h7 : occursIn "dangerouslySetInnerHTML".data (codeStringOf codeBare).data = false := by
    decide
  have h8 : occursIn "eval(".data (codeStringOf codeBare).data = false := by decide
  have h9 : occursIn "document.write".data (codeStringOf codeBare).data = false := by decide
  simp only [performQualityAssessment, calculateVisualScore, calculateCodeScore,
    calculatePerformanceScore, calculateSecurityScore, hasCommentsIn, hasTypeScriptIn, cfgBare,
    h1, h2, h3, h4, h5, h6, h7, h8, h9]
  have h10 : occursIn ['/', '*'] (codeStringOf codeBare).data = false := by decide
  have h11 : occursIn ['/', '/'] (codeStringOf codeBare).data = false := by decide
  norm_num [min_def, max_def, h10, h11]

/-- C3 counterexample: on the bare artifact the overall score (410/6) is
not the arithmetic mean (325/5) of the five §4.6 component scores (code,
performance, accessibility, maintainability, security): the code averages
six categories including the constant `visual` score. -/
theorem C3_counterexample :
    (performQualityAssessment codeBare cfgBare).overall ≠
      ((performQualityAssessment codeBare cfgBare).categories.code +
        (performQualityAssessment codeBare cfgBare).categories.performance +
        (performQualityAssessment codeBare cfgBare).categories.accessibility +
        (performQualityAssessment codeBare cfgBare).categories.maintainability +
        (performQualityAssessment codeBare cfgBare).categories.security) / 5 := by
  have hov : (performQualityAssessment codeBare cfgBare).overall =
      ((performQualityAssessment codeBare cfgBare).categories.visual +
        (performQualityAssessment codeBare cfgBare).categories.code +
        (performQualityAssessment codeBare cfgBare).categories.performance +
        (performQualityAssessment codeBare cfgBare).categories.accessibility +
        (performQualityAssessment codeBare cfgBare).categories.maintainability +
        (performQualityAssessment codeBare cfgBare).categories.security) / 6 := rfl
  rw [hov, qaBare_categories]
  norm_num

/-- C3 (amended): for every assessment, `overall` equals the arithmetic
mean of the six category scores (visual, code, performance, accessibility,
maintainability, security). -/
theorem C3_overall_is_mean_of_six (code : AdaptedCode) (config : CodeGenerationConfig) :
    (performQualityAssessment code config).overall =
      ((performQualityAssessment code config).categories.visual +
        (performQualityAssessment code config).categories.code +
        (performQualityAssessment code config).categories.performance +
        (performQualityAssessment code config).categories.accessibility +
        (performQualityAssessment code config).categories.maintainability +
        (performQualityAssessment code config).categories.security) / 6 := rfl

/-- C7 counterexample: with comments, typed interfaces and tests all
absent, maintainability is 30, not the 0 that three independently gated
bonuses (40/30/30, absent contributes nothing) would give. -/
theorem C7_counterexample :
    hasCommentsIn (codeStringOf codeBare) = false ∧
    hasTypeScriptIn (codeStringOf codeBare) cfgBare = false ∧
    cfgBare.testing.unitTests = false ∧
    (performQualityAssessment codeBare cfgBare).categories.maintainability = 30 ∧
    (performQualityAssessment codeBare cfgBare).categories.maintainability ≠ 0 := by
  refine ⟨by decide, by decide, by decide, ?_, ?_⟩
  · rw [qaBare_categories]
  · rw [qaBare_categories]
    norm_num

/-- C7 (amended): maintainability is the sum of three independently gated
signals, but the first two have non-zero fallbacks: comments contribute
40 when present and 20 when absent, typed interfaces 30 when present and
10 when absent, enabled unit tests 30 when present and nothing when
absent. -/
theorem C7_maintainability_formula (code : AdaptedCode) (config : CodeGenerationConfig) :
    (performQualityAssessment code config).categories.maintainability =
      (if hasCommentsIn (codeStringOf code) then 40 else 20) +
      (if hasTypeScriptIn (codeStringOf code) config then 30 else 10) +
      (if config.testing.unitTests then 30 else 0) := rfl

/-! ## Pattern analysis (services/aiDesignAnalyzer.ts)

Figma node coordinates are JavaScript numbers holding exact decimal design
coordinates; they are modelled as `ℚ`.  Optional fields model `undefined`
properties, whose JavaScript falsiness the predicates rely on. -/

structure BBox where
  x : ℚ
  y : ℚ
  width : ℚ
  height : ℚ

/-- A paint entry of `node.fills`; the predicates only test presence. -/
structure Fill where
  fillType : String

inductive FigmaNode where
  | mk (nodeType : String) (name : Option String) (children : Option (List FigmaNode))
      (fills : Option (List Fill)) (absoluteBoundingBox : Option BBox)

def FigmaNode.nodeType : FigmaNode → String
  | FigmaNode.mk t _ _ _ _ => t

def FigmaNode.name : FigmaNode → Option String
  | FigmaNode.mk _ n _ _ _ => n

def FigmaNode.children : FigmaNode → Option (List FigmaNode)
  | FigmaNode.mk _ _ c _ _ => c

def FigmaNode.fills : FigmaNode → Option (List Fill)
  | FigmaNode.mk _ _ _ f _ => f

def FigmaNode.absoluteBoundingBox : FigmaNode → Option BBox
  | FigmaNode.mk _ _ _ _ b => b

/-- `node.name?.toLowerCase().includes(pat)`: `undefined` names are falsy. -/
def nameHas (node : FigmaNode) (pat : String) : Bool :=
  match node.name with
  | some n => occursIn pat.data (n.data.map toLowerAscii)
  | none => false

/-- `isCardPattern`: a background fill, at least one child, and a
frame/rectangle type. -/
def isCardPattern (node : FigmaNode) : Bool :=
  (match node.fills with | some fs => fs.length > 0 | none => false) &&
  (match node.children with | some cs => cs.length > 0 | none => false) &&
  (node.nodeType = "FRAME" || node.nodeType = "RECTANGLE")

/-- `hasButtonDimensions`: the bounding box lies strictly inside the
button-like 60–300 × 30–80 range. -/
def hasButtonDimensions (node : FigmaNode) : Bool :=
  match node.absoluteBoundingBox with
  | none => false
  | some b =>
    decide (60 < b.width) && decide (b.width < 300) &&
      decide (30 < b.height) && decide (b.height < 80)

/-- `isButtonPattern`: a text child, a fill, and a button-ish name or
button-like dimensions. -/
def isButtonPattern (node : FigmaNode) : Bool :=
  let hasText := match node.children with
    | some cs => cs.any (fun child => child.nodeType = "TEXT")
    | none => false
  let hasBackground := match node.fills with | some fs => fs.length > 0 | none => false
  let isClickable := nameHas node "button" || nameHas node "btn"
  hasText && hasBackground && (isClickable || hasButtonDimensions node)

/-- `isFormPattern`: some child named like an input/field, or a text child
named like a label (`&&` binds tighter than `||` in the source). -/
def isFormPattern (node : FigmaNode) : Bool :=
  match node.children with
  | none => false
  | some cs =>
    cs.any (fun child =>
      nameHas child "input" || nameHas child "field" ||
        (child.nodeType = "TEXT" && nameHas child "label"))

/-- `isLinearLayout`: the first two children are aligned on x or on y
within a 10-unit tolerance. -/
def isLinearLayout (node : FigmaNode) : Bool :=
  match node.children with
  | none => false
  | some cs =>
    match cs with
    | c1 :: c2 :: _ =>
      match c1.absoluteBoundingBox, c2.absoluteBoundingBox with
      | some b1, some b2 => decide (|b1.y - b2.y| < 10) || decide (|b1.x - b2.x| < 10)
      | _, _ => false
    | _ => false

/-- `isNavigationPattern`: at least three children and a linear layout or a
nav/menu name. -/
def isNavigationPattern (node : FigmaNode) : Bool :=
  match node.children with
  | none => false
  | some cs =>
    decide (cs.length ≥ 3) && (isLinearLayout node || nameHas node "nav" || nameHas node "menu")

structure AccessibilityInsight where
  insightType : String
  message : String
  fix : String
deriving DecidableEq

inductive PatternType where
  | card | button | form | navigation | header | footer | sidebar | modal
deriving DecidableEq

structure DesignPattern where
  patternType : PatternType
  confidence : ℚ
  suggestions : List String
  accessibility : List AccessibilityInsight

/-- `hasProperContrast` is a stub returning `true` in the source. -/
def hasProperContrast (_node : FigmaNode) : Bool := true

/-- `hasMinimumTouchTarget`: at least 44 × 44. -/
def hasMinimumTouchTarget (node : FigmaNode) : Bool :=
  match node.absoluteBoundingBox with
  | none => false
  | some b => decide (44 ≤ b.width) && decide (44 ≤ b.height)

def analyzeCardAccessibility (node : FigmaNode) : List AccessibilityInsight :=
  [AccessibilityInsight.mk "suggestion" "Add semantic HTML structure"
    "Use <article> or <section> elements for card containers"] ++
  (if !hasProperContrast node then
    [AccessibilityInsight.mk "warning" "Text contrast may be insufficient"
      "Ensure at least 4.5:1 contrast ratio for normal text"]
  else [])

def analyzeButtonAccessibility (node : FigmaNode) : List AccessibilityInsight :=
  [AccessibilityInsight.mk "suggestion" "Add proper ARIA labels"
    "Include aria-label or aria-describedby attributes"] ++
  (if !hasMinimumTouchTarget node then
    [AccessibilityInsight.mk "error" "Touch target too small"
      "Ensure buttons are at least 44px × 44px"]
  else [])

def analyzeFormAccessibility (_node : FigmaNode) : List AccessibilityInsight :=
  [AccessibilityInsight.mk "error" "Associate labels with form controls"
    "Use proper <label> elements or aria-labelledby",
   AccessibilityInsight.mk "suggestion" "Add form validation feedback"
    "Implement aria-invalid and aria-describedby for errors"]

def analyzeNavigationAccessibility (_node : FigmaNode) : List AccessibilityInsight :=
  [AccessibilityInsight.mk "error" "Add navigation landmarks"
    "Use <nav> element with proper aria-label",
   AccessibilityInsight.mk "suggestion" "Implement keyboard navigation"
    "Ensure all items are focusable and support arrow key navigation"]

/-- `identifyPattern`: the detection rules are tried in a fixed order and
the first match returns, so at most one pattern is produced per node. -/
def identifyPattern (node : FigmaNode) : Option DesignPattern :=
  if isCardPattern node then
    some (DesignPattern.mk PatternType.card 0.85
      ["Consider adding subtle shadow for depth",
       "Ensure proper spacing between elements",
       "Add hover states for interactivity"]
      (analyzeCardAccessibility node))
  else if isButtonPattern node then
    some (DesignPattern.mk PatternType.button 0.9
      ["Add focus states for keyboard navigation",
       "Ensure minimum 44px touch target",
       "Consider loading states"]
      (analyzeButtonAccessibility node))
  else if isFormPattern node then
    some (DesignPattern.mk PatternType.form 0.8
      ["Add proper form validation",
       "Include error states",
       "Group related fields with fieldsets"]
      (analyzeFormAccessibility node))
  else if isNavigationPattern node then
    some (DesignPattern.mk PatternType.navigation 0.75
      ["Implement keyboard navigation",
       "Add ARIA landmarks",
       "Consider mobile hamburger menu"]
      (analyzeNavigationAccessibility node))
  else none

/-- `analyzeDesignPatterns`: one `identifyPattern` call per node, keeping
every non-null result in order. -/
def analyzeDesignPatterns (nodes : List FigmaNode) : List DesignPattern :=
  nodes.filterMap identifyPattern

/-- A child stub with a bounding box at horizontal offset `xc`. -/
def navChild (xc : ℚ) : FigmaNode :=
  FigmaNode.mk "FRAME" none none none (some (BBox.mk xc 0 10 10))

/-- A filled frame with three horizontally aligned children: it satisfies
both the card predicate and the navigation predicate at once. -/
def cardNavNode : FigmaNode :=
  FigmaNode.mk "FRAME" (some "Panel") (some [navChild 0, navChild 20, navChild 40])
    (some [Fill.mk "SOLID"]) (some (BBox.mk 0 0 200 50))

theorem cardNav_isCard : isCardPattern cardNavNode = true := by
  simp [isCardPattern, cardNavNode, FigmaNode.fills, FigmaNode.children, FigmaNode.nodeType]

theorem cardNav_isNav : isNavigationPattern cardNavNode = true := by
  simp only [isNavigationPattern, cardNavNode, FigmaNode.children, isLinearLayout, navChild,
    FigmaNode.absoluteBoundingBox, Bool.and_eq_true, Bool.or_eq_true, decide_eq_true_eq]
  refine ⟨by norm_num, Or.inl (Or.inl (Or.inl ?_))⟩
  norm_num

/-- The card pattern that `identifyPattern` emits for `cardNavNode`. -/
def cardNavPattern : DesignPattern :=
  DesignPattern.mk PatternType.card 0.85
    ["Consider adding subtle shadow for depth",
     "Ensure proper spacing between elements",
     "Add hover states for interactivity"]
    (analyzeCardAccessibility cardNavNode)

theorem identifyPattern_cardNav : identifyPattern cardNavNode = some cardNavPattern := by
  rw [identifyPattern, if_pos cardNav_isCard]
  rfl

/-- C4 counterexample: `cardNavNode` satisfies both the card and the
navigation predicate, yet the analyzer emits exactly one pattern for it —
a card — so not every match is retained. -/
theorem C4_counterexample :
    isCardPattern cardNavNode = true ∧ isNavigationPattern cardNavNode = true ∧
    (analyzeDesignPatterns [cardNavNode]).map DesignPattern.patternType = [PatternType.card] := by
  refine ⟨cardNav_isCard, cardNav_isNav, ?_⟩
  simp [analyzeDesignPatterns, identifyPattern_cardNav, cardNavPattern]

/-- C4 (amended): the four pattern predicates are not mutually exclusive,
but each node yields at most one pattern — the first matching predicate in
the fixed order card, button, form, navigation; a node matching no
predicate yields none, and the analyzer keeps at most one pattern per
node. -/
theorem C4_first_match_only :
    (∀ node p, identifyPattern node = some p →
      p.patternType = (if isCardPattern node then PatternType.card
        else if isButtonPattern node then PatternType.button
        else if isFormPattern node then PatternType.form
        else PatternType.navigation)) ∧
    (∀ node, (identifyPattern node).isSome =
      (isCardPattern node || isButtonPattern node || isFormPattern node ||
        isNavigationPattern node)) ∧
    (∀ nodes, (analyzeDesignPatterns nodes).length ≤ nodes.length) := by
  refine ⟨?_, ?_, ?_⟩
  · intro node p hp
    unfold identifyPattern at hp
    split_ifs at hp with h1 h2 h3 h4
    · injection hp with h; subst h; rw [if_pos h1]
    · injection hp with h; subst h; rw [if_neg h1, if_pos h2]
    · injection hp with h; subst h; rw [if_neg h1, if_neg h2, if_pos h3]
    · injection hp with h; subst h; rw [if_neg h1, if_neg h2, if_neg h3]
  · intro node
    unfold identifyPattern
    split_ifs with h1 h2 h3 h4 <;> simp_all
  · intro nodes
    exact List.length_filterMap_le _ _

theorem C4_witness :
    cardNavPattern.patternType =
      (if isCardPattern cardNavNode then PatternType.card
        else if isButtonPattern cardNavNode then PatternType.button
        else if isFormPattern cardNavNode then PatternType.form
        else PatternType.navigation) ∧
    (identifyPattern cardNavNode).isSome =
      (isCardPattern cardNavNode || isButtonPattern cardNavNode || isFormPattern cardNavNode ||
        isNavigationPattern cardNavNode) :=
  ⟨C4_first_match_only.1 cardNavNode cardNavPattern identifyPattern_cardNav,
   C4_first_match_only.2.1 cardNavNode⟩

theorem calculateCodeScore_bounds (s : String) (config : CodeGenerationConfig) :
    0 ≤ calculateCodeScore s config ∧ calculateCodeScore s config ≤ 100 := by
  simp only [calculateCodeScore]
  refine ⟨le_min ?_ (by norm_num), min_le_right _ _⟩
  split_ifs <;> norm_num

theorem calculatePerformanceScore_bounds (code : AdaptedCode) (config : CodeGenerationConfig) :
    0 ≤ calculatePerformanceScore code config ∧ calculatePerformanceScore code config ≤ 100 := by
  simp only [calculatePerformanceScore]
  refine ⟨le_min ?_ (by norm_num), min_le_right _ _⟩
  split_ifs <;> norm_num

theorem calculateSecurityScore_bounds (s : String) :
    0 ≤ calculateSecurityScore s ∧ calculateSecurityScore s ≤ 100 := by
  simp only [calculateSecurityScore]
  refine ⟨le_max_right _ _, max_le ?_ (by norm_num)⟩
  split_ifs <;> norm_num

/-- C9: every emitted design pattern has confidence in [0,1], and every
quality-assessment category score and the overall score lie in [0,100]. -/
theorem C9_confidence_and_score_bounds :
    (∀ node p, identifyPattern node = some p → 0 ≤ p.confidence ∧ p.confidence ≤ 1) ∧
    (∀ (code : AdaptedCode) (config : CodeGenerationConfig),
      (0 ≤ (performQualityAssessment code config).categories.visual ∧
        (performQualityAssessment code config).categories.visual ≤ 100) ∧
      (0 ≤ (performQualityAssessment code config).categories.code ∧
        (performQualityAssessment code config).categories.code ≤ 100) ∧
      (0 ≤ (performQualityAssessment code config).categories.performance ∧
        (performQualityAssessment code config).categories.performance ≤ 100) ∧
      (0 ≤ (performQualityAssessment code config).categories.accessibility ∧
        (performQualityAssessment code config).categories.accessibility ≤ 100) ∧
      (0 ≤ (performQualityAssessment code config).categories.maintainability ∧
        (performQualityAssessment code config).categories.maintainability ≤ 100) ∧
      (0 ≤ (performQualityAssessment code config).categories.security ∧
        (performQualityAssessment code config).categories.security ≤ 100) ∧
      (0 ≤ (performQualityAssessment code config).overall ∧
        (performQualityAssessment code config).overall ≤ 100)) := by
  constructor
  · intro node p hp
    unfold identifyPattern at hp
    split_ifs at hp <;> (injection hp with h; subst h; constructor <;> norm_num)
  · intro code config
    have hv : (performQualityAssessment code config).categories.visual = 85 := rfl
    have hc : (performQualityAssessment code config).categories.code =
        calculateCodeScore (codeStringOf code) config := rfl
    have hpf : (performQualityAssessment code config).categories.performance =
        calculatePerformanceScore code config := rfl
    have ha : (performQualityAssessment code config).categories.accessibility =
        (if hasAccessibilityIn (codeStringOf code) then (95 : ℚ) else 60) := rfl
    have hm : (performQualityAssessment code config).categories.maintainability =
        ((if hasCommentsIn (codeStringOf code) then (40 : ℚ) else 20) +
          (if hasTypeScriptIn (codeStringOf code) config then (30 : ℚ) else 10) +
          (if config.testing.unitTests then (30 : ℚ) else 0)) := rfl
    have hs : (performQualityAssessment code config).categories.security =
        calculateSecurityScore (codeStringOf code) := rfl
    have hov : (performQualityAssessment code config).overall =
        ((performQualityAssessment code config).categories.visual +
          (performQualityAssessment code config).categories.code +
          (performQualityAssessment code config).categories.performance +
          (performQualityAssessment code config).categories.accessibility +
          (performQualityAssessment code config).categories.maintainability +
          (performQualityAssessment code config).categories.security) / 6 := rfl
    have bv : 0 ≤ (performQualityAssessment code config).categories.visual ∧
        (performQualityAssessment code config).categories.visual ≤ 100 := by
      rw [hv]; norm_num
    have bc := hc ▸ calculateCodeScore_bounds (codeStringOf code) config
    have bp := hpf ▸ calculatePerformanceScore_bounds code config
    have ba : 0 ≤ (performQualityAssessment code config).categories.accessibility ∧
        (performQualityAssessment code config).categories.accessibility ≤ 100 := by
      rw [ha]; split_ifs <;> norm_num
    have bm : 0 ≤ (performQualityAssessment code config).categories.maintainability ∧
        (performQualityAssessment code config).categories.maintainability ≤ 100 := by
      rw [hm]; split_ifs <;> norm_num
    have bs := hs ▸ calculateSecurityScore_bounds (codeStringOf code)
    refine ⟨bv, bc, bp, ba, bm, bs, ?_⟩
    rw [hov]
    constructor
    · apply div_nonneg _ (by norm_num)
      linarith [bv.1, bc.1, bp.1, ba.1, bm.1, bs.1]
    · rw [div_le_iff₀ (by norm_num : (0 : ℚ) < 6)]
      linarith [bv.2, bc.2, bp.2, ba.2, bm.2, bs.2]

theorem C9_witness :
    (0 ≤ cardNavPattern.confidence ∧ cardNavPattern.confidence ≤ 1) ∧
    (0 ≤ (performQualityAssessment codeBare cfgBare).categories.visual ∧
      (performQualityAssessment codeBare cfgBare).categories.visual ≤ 100) ∧
    (0 ≤ (performQualityAssessment codeBare cfgBare).overall ∧
      (performQualityAssessment codeBare cfgBare).overall ≤ 100) := by
  have h2 := C9_confidence_and_score_bounds.2 codeBare cfgBare
  exact ⟨C9_confidence_and_score_bounds.1 cardNavNode cardNavPattern identifyPattern_cardNav,
    h2.1, h2.2.2.2.2.2.2⟩

/-! ## Regex scanners shared by the svg-to-jsx pipeline

JavaScript global regex matching scans left to right; a successful match
consumes its text, a failed attempt advances one position.  For the tag
regexes used here a match at a `<` requires the next character to satisfy a
class test and ends at the first following `>`, so the scan is a
single-pass automaton whose collecting state carries the pending tag text
in reverse. -/

def lbrace : Char := Char.ofNat 123
def rbrace : Char := Char.ofNat 125

/-- Generic tag scanner: matches of `<` + (one char satisfying `p`) +
`[^>]*` + `>`, returned in order.  With `p c = (c ≠ '>')` this is the
element regex `<([^>]+)>`; with `p c = (c ≠ '/')` the open-tag count regex;
with `p c = (c = '/')` the close-tag regex. -/
def scanAut (p : Char → Bool) : Option (List Char) → List Char → List (List Char)
  | _, [] => []
  | some acc, x :: rest =>
    if x = '>' then (acc.reverse ++ ['>']) :: scanAut p none rest
    else scanAut p (some (x :: acc)) rest
  | none, [_] => []
  | none, x :: c :: rest2 =>
    if x = '<' then
      (if p c then scanAut p (some [c, '<']) rest2
       else scanAut p none (c :: rest2))
    else scanAut p none (c :: rest2)

/-- Matches of the chunking regex `<([^>]+)>`. -/
def elementMatches (l : List Char) : List (List Char) :=
  scanAut (fun c => !(c = '>')) none l

/-- Matches of the open-tag regex (the `metadata.elementCount` regex of
`svgToJsx`, also the `openTags` count of `validateAndCleanSvg`). -/
def openTagMatches (l : List Char) : List (List Char) :=
  scanAut (fun c => !(c = '/')) none l

def countElements (l : List Char) : Nat := (openTagMatches l).length

/-- Matches of the close-tag regex of `validateAndCleanSvg`. -/
def closeTagMatches (l : List Char) : List (List Char) :=
  scanAut (fun c => c = '/') none l

/-- Split at the first occurrence of `t`, returning the text before and
after it. -/
def splitAtChar (t : Char) : List Char → Option (List Char × List Char)
  | [] => none
  | c :: rest =>
    if c = t then some ([], rest)
    else
      match splitAtChar t rest with
      | none => none
      | some (mid, after) => some (c :: mid, after)

/-- Count of the self-closing regex of `validateAndCleanSvg`: a `<`, a run
without `>`, then `/>`; a failed attempt rescans from the next character. -/
def selfClosingGo : Nat → List Char → Nat
  | 0, _ => 0
  | _, [] => 0
  | fuel + 1, x :: rest =>
    if x = '<' then
      match splitAtChar '>' rest with
      | some (run, after) =>
        if run.getLast? = some '/' then 1 + selfClosingGo fuel after
        else selfClosingGo fuel rest
      | none => 0
    else selfClosingGo fuel rest

def selfClosingCount (l : List Char) : Nat := selfClosingGo l.length l

/-! ## Literal string replacement -/

/-- Global literal replacement, left-to-right and non-overlapping: the body
of the chained `.replace(/lit/g, ...)` calls.  The `skip` counter steps
over the remainder of a match that was just replaced. -/
def repGo (pat rep : List Char) : Nat → List Char → List Char
  | _ + 1, [] => []
  | skip + 1, _ :: rest => repGo pat rep skip rest
  | 0, [] => []
  | 0, x :: rest =>
    if pat.isPrefixOf (x :: rest) then rep ++ repGo pat rep (pat.length - 1) rest
    else x :: repGo pat rep 0 rest

def replaceAll (pat rep l : List Char) : List Char := repGo pat rep 0 l

/-- First-occurrence literal replacement (`String.prototype.replace` with a
string pattern). -/
def replaceFirst (pat rep : List Char) : List Char → List Char
  | [] => []
  | x :: rest =>
    if pat.isPrefixOf (x :: rest) then rep ++ (x :: rest).drop pat.length
    else x :: replaceFirst pat rep rest

/-! ## svg-to-jsx attribute renaming (processChunk / processStandardSvg) -/

/-- The thirteen attribute renames applied by `processChunk` and
`processStandardSvg`, in source order. -/
def svgJsxRenames : List (List Char × List Char) :=
  [("class=".data, "className=".data),
   ("stroke-width=".data, "strokeWidth=".data),
   ("fill-opacity=".data, "fillOpacity=".data),
   ("stroke-opacity=".data, "strokeOpacity=".data),
   ("stroke-linecap=".data, "strokeLinecap=".data),
   ("stroke-linejoin=".data, "strokeLinejoin=".data),
   ("stroke-dasharray=".data, "strokeDasharray=".data),
   ("font-family=".data, "fontFamily=".data),
   ("font-size=".data, "fontSize=".data),
   ("font-weight=".data, "fontWeight=".data),
   ("text-anchor=".data, "textAnchor=".data),
   ("clip-path=".data, "clipPath=".data),
   ("fill-rule=".data, "fillRule=".data)]

def applyRenames (l : List Char) : List Char :=
  svgJsxRenames.foldl (fun acc pr => replaceAll pr.1 pr.2 acc) l

/-- `processChunk` of the large-file handler. -/
def processChunk (chunk : List Char) : List Char := applyRenames chunk

/-- Merged options of `svgToJsx` (only the fields the conversion reads). -/
structure SVGOptions where
  passProps : Bool
  passChildren : Bool
  componentName : String
  maxFileSize : Nat
  enableLargeFileHandling : Bool
deriving DecidableEq

/-- `DEFAULT_OPTIONS` of svg-to-jsx. -/
def defaultOptions : SVGOptions :=
  SVGOptions.mk false false "SVGComponent" 10485760 true

/-- `processStandardSvg`: the attribute renames, then the optional
`{...props}` and `{children}` insertions. -/
def processStandardSvg (svg : List Char) (opts : SVGOptions) : List Char :=
  let jsx := applyRenames svg
  let jsx2 := if opts.passProps
    then replaceFirst "<svg".data "<svg \x7b...props\x7d".data jsx else jsx
  let jsx3 := if opts.passChildren
    then replaceFirst "</svg>".data "\x7bchildren\x7d</svg>".data jsx2 else jsx2
  jsx3

/-! ## Large-file handler (lib/svg-to-jsx/large-file-handler.ts) -/

structure LargeFileConfig where
  maxChunkSize : Nat
  maxMemoryUsage : Nat
deriving DecidableEq

/-- The defaults of the exported `largeSvgHandler` singleton (1 MB chunks,
100 MB memory ceiling). -/
def defaultLargeConfig : LargeFileConfig := LargeFileConfig.mk 1048576 104857600

/-- UTF-8 byte size, modelling `new Blob([s]).size`. -/
def blobSizeL (l : List Char) : Nat := l.foldl (fun n c => n + c.utf8Size) 0

def blobSize (s : String) : Nat := blobSizeL s.data

/-- `(num / den).toFixed(1)` for the byte-size messages, with exact
half-up rounding (`toFixed` on IEEE doubles can differ on representation
ties; the sizes involved are integers, where the two agree). -/
def toFixed1Frac (num den : Nat) : String :=
  let m := (num * 10 + den / 2) / den
  String.mk (Nat.toDigits 10 (m / 10)) ++ "." ++ String.mk (Nat.toDigits 10 (m % 10))

/-- The size-ceiling error message of `svgToJsx` (and, with the memory
ceiling, of `processLargeSvg`). -/
def sizeLimitMessage (size max : Nat) : String :=
  "File too large: " ++ toFixed1Frac size 1048576 ++ "MB exceeds " ++
    toFixed1Frac max 1048576 ++ "MB limit"

/-- Drop everything up to and past the first occurrence of `pat`;
`none` when `pat` does not occur. -/
def findSeq (pat : List Char) : List Char → Option (List Char)
  | [] => if pat.isEmpty then some [] else none
  | x :: rest =>
    if pat.isPrefixOf (x :: rest) then some ((x :: rest).drop pat.length)
    else findSeq pat rest

/-- The comment-removal regex of `validateAndCleanSvg`: each lazy
`<!-- ... -->` block is dropped; an unterminated `<!--` matches nothing. -/
def stripComments : Nat → List Char → List Char
  | 0, l => l
  | _ + 1, [] => []
  | fuel + 1, x :: rest =>
    if ("<!--".data).isPrefixOf (x :: rest) then
      match findSeq "-->".data ((x :: rest).drop 4) with
      | some after => stripComments fuel after
      | none => x :: rest
    else x :: stripComments fuel rest

/-- The whitespace collapse `\s+` → single space. -/
def collapseWsGo (prevWs : Bool) : List Char → List Char
  | [] => []
  | x :: rest =>
    if isWsChar x then
      if prevWs then collapseWsGo true rest
      else ' ' :: collapseWsGo true rest
    else x :: collapseWsGo false rest

def collapseWs (l : List Char) : List Char := collapseWsGo false l

/-- One void-element fix of `fixUnbalancedTags`: rewrite `<tag ...>` whose
content does not already end in `/` into `<tag .../>`; a failed attempt
(content ending in `/`) rescans from the next character, matching the
lookbehind regex of the source. -/
def fixVoidGo (tagPat : List Char) : Nat → List Char → List Char
  | 0, l => l
  | _ + 1, [] => []
  | fuel + 1, x :: rest =>
    if tagPat.isPrefixOf (x :: rest) then
      match splitAtChar '>' ((x :: rest).drop tagPat.length) with
      | some (run, after) =>
        if run.getLast? = some '/' then x :: fixVoidGo tagPat fuel rest
        else tagPat ++ run ++ '/' :: '>' :: fixVoidGo tagPat fuel after
      | none => x :: rest
    else x :: fixVoidGo tagPat fuel rest

def fixUnbalancedTags (l : List Char) : List Char :=
  ["<path", "<circle", "<rect", "<line", "<ellipse"].foldl
    (fun acc tag => fixVoidGo tag.data acc.length acc) l

/-- `validateAndCleanSvg`: strip comments, collapse whitespace, trim,
require an `<svg` element, and repair an unbalanced tag count. -/
def validateAndCleanSvg (svgContent : List Char) : Except String (List Char) :=
  let cleaned := jsTrim (collapseWs (stripComments svgContent.length svgContent))
  if !occursIn "<svg".data cleaned then
    Except.error "Invalid SVG: No <svg> element found"
  else
    let openTags := countElements cleaned
    let closeTags := (closeTagMatches cleaned).length
    let selfClosing := selfClosingCount cleaned
    if openTags ≠ closeTags + selfClosing then Except.ok (fixUnbalancedTags cleaned)
    else Except.ok cleaned

/-- `chunkByElements`: group the element matches into chunks of at most
`maxChunkSize` characters (a single element larger than the bound still
forms a chunk). -/
def chunkByElements (maxChunkSize : Nat) (l : List Char) : List (List Char) :=
  let step := fun (st : List (List Char) × List Char) (el : List Char) =>
    if st.2.length + el.length > maxChunkSize && !st.2.isEmpty then (st.1 ++ [st.2], el)
    else (st.1, st.2 ++ el)
  let fin := (elementMatches l).foldl step ([], [])
  if fin.2.isEmpty then fin.1 else fin.1 ++ [fin.2]

/-- Fixed-size slicing used for contents at most twice the chunk size. -/
def simpleChunks (chunkSize : Nat) : Nat → List Char → List (List Char)
  | 0, _ => []
  | _ + 1, [] => []
  | fuel + 1, l => l.take chunkSize :: simpleChunks chunkSize fuel (l.drop chunkSize)

/-- `chunkSvgContent`: element-boundary chunking for contents longer than
twice the chunk size, plain slicing otherwise. -/
def chunkSvgContent (maxChunkSize : Nat) (l : List Char) : List (List Char) :=
  if l.length > maxChunkSize * 2 then chunkByElements maxChunkSize l
  else simpleChunks maxChunkSize l.length l

/-- `(name, value, rest)` of an attribute `name="value"` starting at the
head of the input, as matched by the optimizer regexes. -/
def parseEqTail (l : List Char) : Option (List Char) :=
  match l with
  | a :: b :: r2 =>
    if a = '=' && b = '"' then
      let r3 := r2.dropWhile (fun c => !(c = '"'))
      match r3 with
      | q :: r4 => if q = '"' then some r4 else none
      | [] => none
    else none
  | _ => none

def parseAttrAt (l : List Char) : Option (List Char × List Char × List Char) :=
  let name := l.takeWhile isWordChar
  let r1 := l.dropWhile isWordChar
  if name.isEmpty then none
  else
    match r1 with
    | a :: b :: r2 =>
      if a = '=' && b = '"' then
        let value := r2.takeWhile (fun c => !(c = '"'))
        let r3 := r2.dropWhile (fun c => !(c = '"'))
        match r3 with
        | q :: r4 => if q = '"' then some (name, value, r4) else none
        | [] => none
      else none
    | _ => none

/-- Consume the greedy `(\s+\1="[^"]*")+` repetitions of the
duplicate-attribute regex; returns the rest and whether at least one
repetition was consumed. -/
def eatReps (name : List Char) : Nat → List Char → (List Char × Bool)
  | 0, l => (l, false)
  | fuel + 1, l =>
    let ws := l.takeWhile isWsChar
    let r1 := l.dropWhile isWsChar
    if ws.isEmpty then (l, false)
    else if name.isPrefixOf r1 then
      match parseEqTail (r1.drop name.length) with
      | some rest2 => ((eatReps name fuel rest2).1, true)
      | none => (l, false)
    else (l, false)

/-- The duplicate-attribute removal of `optimizeJsx`:
`(\w+)="([^"]*)"(\s+\1="[^"]*")+` collapses to the first occurrence. -/
def dedupAttrsGo : Nat → List Char → List Char
  | 0, l => l
  | _ + 1, [] => []
  | fuel + 1, x :: rest =>
    if isWordChar x then
      match parseAttrAt (x :: rest) with
      | some (name, value, r3) =>
        let rep := eatReps name fuel r3
        if rep.2 then name ++ '=' :: '"' :: value ++ '"' :: dedupAttrsGo fuel rep.1
        else x :: dedupAttrsGo fuel rest
      | none => x :: dedupAttrsGo fuel rest
    else x :: dedupAttrsGo fuel rest

def digitsToNat (ds : List Char) : Nat :=
  ds.foldl (fun n c => n * 10 + (c.toNat - 48)) 0

/-- `parseFloat(num).toFixed(2)` for a literal `d1.d2` with at least three
decimals, computed by exact half-up rounding (IEEE doubles can round a
representation tie differently; the optimizer only shortens decimal
noise, where the two agree). -/
def toFixed2 (d1 d2 : List Char) : List Char :=
  let k := d2.length
  let n := digitsToNat (d1 ++ d2)
  let m := (n + 5 * 10 ^ (k - 3)) / 10 ^ (k - 2)
  Nat.toDigits 10 (m / 100) ++ '.' ::
    (if m % 100 < 10 then '0' :: Nat.toDigits 10 (m % 100) else Nat.toDigits 10 (m % 100))

/-- The numeric-precision optimization of `optimizeJsx`:
`="(\d+\.\d{3,})"` is shortened to two decimals. -/
def optimizeNumbersGo : Nat → List Char → List Char
  | 0, l => l
  | _ + 1, [] => []
  | fuel + 1, x :: rest =>
    if x = '=' then
      match rest with
      | q :: r1 =>
        if q = '"' then
          let d1 := r1.takeWhile isDigitAscii
          let r2 := r1.dropWhile isDigitAscii
          if !d1.isEmpty then
            match r2 with
            | dot :: r3 =>
              if dot = '.' then
                let d2 := r3.takeWhile isDigitAscii
                let r4 := r3.dropWhile isDigitAscii
                if d2.length ≥ 3 && r4.head? = some '"' then
                  '=' :: '"' :: toFixed2 d1 d2 ++ '"' :: optimizeNumbersGo fuel r4.tail
                else '=' :: optimizeNumbersGo fuel rest
              else '=' :: optimizeNumbersGo fuel rest
            | [] => '=' :: optimizeNumbersGo fuel rest
          else '=' :: optimizeNumbersGo fuel rest
        else '=' :: optimizeNumbersGo fuel rest
      | [] => ['=']
    else x :: optimizeNumbersGo fuel rest

/-- The empty-attribute removal of `optimizeJsx`: `\s+\w+=""` is dropped. -/
def removeEmptyAttrsGo : Nat → List Char → List Char
  | 0, l => l
  | _ + 1, [] => []
  | fuel + 1, x :: rest =>
    if isWsChar x then
      let r1 := (x :: rest).dropWhile isWsChar
      let w := r1.takeWhile isWordChar
      let r2 := r1.dropWhile isWordChar
      if !w.isEmpty && ("=\"\"".data).isPrefixOf r2 then
        removeEmptyAttrsGo fuel (r2.drop 3)
      else x :: removeEmptyAttrsGo fuel rest
    else x :: removeEmptyAttrsGo fuel rest

/-- `optimizeJsx`: duplicate-attribute removal, numeric shortening, then
empty-attribute removal. -/
def optimizeJsx (jsx : List Char) : List Char :=
  let a := dedupAttrsGo jsx.length jsx
  let b := optimizeNumbersGo a.length a
  removeEmptyAttrsGo b.length b

/-- `processLargeSvg` of the large-file handler, returning the optimized
JSX and the compression ratio of its metrics.  The cooperative abort flag
is never set within one conversion and the per-chunk scheduler yields do
not affect the result. -/
def processLargeSvg (config : LargeFileConfig) (svgContent : List Char) :
    Except String (List Char × ℚ) :=
  let originalSize := blobSizeL svgContent
  if originalSize > config.maxMemoryUsage then
    Except.error (sizeLimitMessage originalSize config.maxMemoryUsage)
  else
    match validateAndCleanSvg svgContent with
    | Except.error e => Except.error e
    | Except.ok validated =>
      let chunks := chunkSvgContent config.maxChunkSize validated
      let jsx := (chunks.map processChunk).flatten
      let optimized := optimizeJsx jsx
      let processedSize := blobSizeL optimized
      Except.ok (optimized,
        ((originalSize : ℚ) - (processedSize : ℚ)) / (originalSize : ℚ) * 100)

/-! ## svgToJsx (lib/svg-to-jsx/index.ts) -/

structure SVGMetadata where
  elementCount : Nat
  attributeCount : Nat
  hasAnimations : Bool
  hasFilters : Bool
  hasGradients : Bool
  size : Nat
  processingTime : ℚ
  isLargeFile : Bool
  compressionRatio : Option ℚ

structure SVGConversionResult where
  jsx : String
  metadata : SVGMetadata
  warnings : List String
  errors : List String

/-- The fixed pieces of the fallback error component template. -/
def fbPrefix : String :=
  "<div className=\"svg-error\" style=\x7b\x7b\n    padding: \x2720px\x27,\n    border: \x272px dashed #e5e7eb\x27,\n    borderRadius: \x278px\x27,\n    textAlign: \x27center\x27,\n    color: \x27#6b7280\x27,\n    backgroundColor: \x27#f9fafb\x27,\n    fontFamily: \x27system-ui, sans-serif\x27\n  \x7d\x7d>\n    <div style=\x7b\x7b fontSize: \x2724px\x27, marginBottom: \x278px\x27 \x7d\x7d>⚠️</div>\n    <div style=\x7b\x7b fontWeight: \x27bold\x27, marginBottom: \x274px\x27 \x7d\x7d>"

def fbMid : String :=
  " Error</div>\n    <div style=\x7b\x7b fontSize: \x2712px\x27, opacity: 0.7 \x7d\x7d>"

def fbSuffix : String := "</div>\n  </div>"

/-- `createFallbackJSX`: the fixed error component with the component name
and the error message interpolated. -/
def createFallbackJSX (errorMessage componentName : String) : String :=
  fbPrefix ++ componentName ++ fbMid ++ errorMessage ++ fbSuffix

/-- The attribute-count regex `\w+="[^"]*"` of the conversion metadata. -/
def attrCountGo : Nat → List Char → Nat
  | 0, _ => 0
  | _ + 1, [] => 0
  | fuel + 1, x :: rest =>
    if isWordChar x then
      let r1 := (x :: rest).dropWhile isWordChar
      match parseEqTail r1 with
      | some r4 => 1 + attrCountGo fuel r4
      | none => attrCountGo fuel rest
    else attrCountGo fuel rest

def attrCount (l : List Char) : Nat := attrCountGo l.length l

def natToString (n : Nat) : String := String.mk (Nat.toDigits 10 n)

/-- The warning pushed before large-file processing. -/
def largeSvgWarning (size : Nat) : String :=
  "Large SVG detected (" ++ toFixed1Frac size 1024 ++ "KB), using optimized processing"

/-- The warning pushed for results with more than 1000 elements. -/
def elementsWarning (n : Nat) : String :=
  "Large SVG detected (" ++ natToString n ++ " elements)"

/-- The result built by the catch-all error path of `svgToJsx`: the fixed
fallback component, the hard-coded metadata, the warnings accumulated
before the failure, and the error message recorded. -/
def fallbackResult (msg : String) (warnings : List String) (opts : SVGOptions) :
    SVGConversionResult :=
  let fallbackJsx := createFallbackJSX msg opts.componentName
  { jsx := fallbackJsx
    metadata := SVGMetadata.mk 1 1 false false false fallbackJsx.length 0 false none
    warnings := warnings
    errors := [msg] }

/-- The result built by the success path of `svgToJsx`: metadata analysed
from the produced JSX.  Wall-clock processing time is not modelled (taken
as 0), so the slow-processing warning never fires in the embedding. -/
def successResult (jsx : List Char) (cr : Option ℚ) (isLargeFile : Bool)
    (warnings : List String) : SVGConversionResult :=
  let elementCount := countElements jsx
  { jsx := String.mk jsx
    metadata := SVGMetadata.mk elementCount (attrCount jsx)
      (occursIn "animate".data jsx || occursIn "animateTransform".data jsx ||
        occursIn "animateMotion".data jsx)
      (occursIn "filter".data jsx || occursIn "feGaussianBlur".data jsx ||
        occursIn "feDropShadow".data jsx)
      (occursIn "linearGradient".data jsx || occursIn "radialGradient".data jsx)
      jsx.length 0 isLargeFile cr
    warnings := warnings ++ (if elementCount > 1000 then [elementsWarning elementCount] else [])
    errors := [] }

/-- The `svg` argument of `svgToJsx`: a string, or any non-string value
(which the validation rejects uniformly). -/
inductive JsInput where
  | str : String → JsInput
  | nonString : JsInput

/-- `svgToJsx`: validation, the size ceiling, routing to the large-file
handler or the standard pass, with every thrown error caught and turned
into the fallback result. -/
def svgToJsx (input : JsInput) (opts : SVGOptions) : SVGConversionResult :=
  match input with
  | JsInput.nonString => fallbackResult "SVG input must be a non-empty string" [] opts
  | JsInput.str svg =>
    if svg = "" then fallbackResult "SVG input must be a non-empty string" [] opts
    else if blobSize svg > opts.maxFileSize then
      fallbackResult (sizeLimitMessage (blobSize svg) opts.maxFileSize) [] opts
    else
      let isLargeFile := blobSize svg > 1048576
      if isLargeFile && opts.enableLargeFileHandling then
        match processLargeSvg defaultLargeConfig svg.data with
        | Except.error e => fallbackResult e [largeSvgWarning (blobSize svg)] opts
        | Except.ok (jsx, cr) =>
          successResult jsx (some cr) isLargeFile [largeSvgWarning (blobSize svg)]
      else
        successResult (processStandardSvg svg.data opts) none isLargeFile []

set_option maxRecDepth 8000 in
theorem createFallbackJSX_length_pos (msg name : String) :
    0 < (createFallbackJSX msg name).length := by
  rw [createFallbackJSX]
  simp only [String.length_append]
  have h : 0 < fbPrefix.length := by decide
  omega

/-- C1: a document whose byte size exceeds the configured ceiling is
rejected with the size-limit error before any processing: the result is
exactly the fallback record for that message, with no warnings (the
large-file path was never entered) and no processed content. -/
theorem C1_oversize_rejected (svg : String) (opts : SVGOptions)
    (h : blobSize svg > opts.maxFileSize) :
    svgToJsx (JsInput.str svg) opts =
      fallbackResult (sizeLimitMessage (blobSize svg) opts.maxFileSize) [] opts := by
  have hne : ¬svg = "" := by
    intro he
    rw [he] at h
    have : blobSize "" = 0 := rfl
    omega
  simp only [svgToJsx]
  rw [if_neg hne, if_pos h]

set_option maxRecDepth 4000 in
theorem C1_witness :
    svgToJsx (JsInput.str "<svg>") (SVGOptions.mk false false "SVGComponent" 4 true) =
      fallbackResult (sizeLimitMessage (blobSize "<svg>") 4) []
        (SVGOptions.mk false false "SVGComponent" 4 true) :=
  C1_oversize_rejected "<svg>" (SVGOptions.mk false false "SVGComponent" 4 true) (by decide)

/-- C10: the conversion always returns a result; whenever the errors array
is non-empty the result is the fallback record: a single recorded message,
the fixed non-empty fallback component as the JSX, and populated metadata
(the hard-coded fallback element and attribute counts and the size of the
fallback component). -/
theorem C10_error_fallback (input : JsInput) (opts : SVGOptions)
    (h : (svgToJsx input opts).errors ≠ []) :
    ∃ msg warns, svgToJsx input opts = fallbackResult msg warns opts ∧
      (svgToJsx input opts).errors = [msg] ∧
      (svgToJsx input opts).jsx = createFallbackJSX msg opts.componentName ∧
      (svgToJsx input opts).jsx.length ≠ 0 ∧
      (svgToJsx input opts).metadata.elementCount = 1 ∧
      (svgToJsx input opts).metadata.attributeCount = 1 ∧
      (svgToJsx input opts).metadata.isLargeFile = false ∧
      (svgToJsx input opts).metadata.size = (svgToJsx input opts).jsx.length := by
  have hlen : ∀ msg : String, (createFallbackJSX msg opts.componentName).length ≠ 0 := by
    intro msg
    have := createFallbackJSX_length_pos msg opts.componentName
    omega
  match hinp : input with
  | JsInput.nonString =>
    exact ⟨"SVG input must be a non-empty string", [], rfl, rfl, rfl, hlen _, rfl, rfl, rfl, rfl⟩
  | JsInput.str svg =>
    simp only [svgToJsx]
    simp only [svgToJsx] at h
    by_cases he : svg = ""
    · rw [if_pos he] at h ⊢
      exact ⟨"SVG input must be a non-empty string", [], rfl, rfl, rfl, hlen _, rfl, rfl, rfl, rfl⟩
    · rw [if_neg he] at h ⊢
      by_cases hsz : blobSize svg > opts.maxFileSize
      · rw [if_pos hsz] at h ⊢
        exact ⟨sizeLimitMessage (blobSize svg) opts.maxFileSize, [], rfl, rfl, rfl, hlen _,
          rfl, rfl, rfl, rfl⟩
      · rw [if_neg hsz] at h ⊢
        by_cases hlarge : (decide (blobSize svg > 1048576) && opts.enableLargeFileHandling) = true
        · simp only [hlarge, if_true] at h ⊢
          match hp : processLargeSvg defaultLargeConfig svg.data with
          | Except.error e =>
            exact ⟨e, [largeSvgWarning (blobSize svg)], rfl, rfl, rfl, hlen _, rfl, rfl, rfl, rfl⟩
          | Except.ok (jsx, cr) =>
            rw [hp] at h
            exact absurd rfl h
        · simp only [hlarge, if_false] at h ⊢
          exact absurd rfl h

theorem C10_witness :
    ∃ msg warns, svgToJsx JsInput.nonString defaultOptions = fallbackResult msg warns defaultOptions ∧
      (svgToJsx JsInput.nonString defaultOptions).errors = [msg] ∧
      (svgToJsx JsInput.nonString defaultOptions).jsx =
        createFallbackJSX msg defaultOptions.componentName ∧
      (svgToJsx JsInput.nonString defaultOptions).jsx.length ≠ 0 ∧
      (svgToJsx JsInput.nonString defaultOptions).metadata.elementCount = 1 ∧
      (svgToJsx JsInput.nonString defaultOptions).metadata.attributeCount = 1 ∧
      (svgToJsx JsInput.nonString defaultOptions).metadata.isLargeFile = false ∧
      (svgToJsx JsInput.nonString defaultOptions).metadata.size =
        (svgToJsx JsInput.nonString defaultOptions).jsx.length :=
  C10_error_fallback JsInput.nonString defaultOptions (by decide)

/-! ## HTML adapter (lib/transform.ts, generateHTMLComponent) -/

/-- The expression-stripping regex of the HTML adapter: each `{...}` group
with a non-empty body is removed; an unterminated `{` is restored
verbatim. -/
def stripCurlyGo : Option (List Char) → List Char → List Char
  | none, [] => []
  | some acc, [] => lbrace :: acc.reverse
  | some acc, x :: rest =>
    if x = rbrace then stripCurlyGo none rest
    else stripCurlyGo (some (x :: acc)) rest
  | none, [x] => [x]
  | none, x :: c :: rest2 =>
    if x = lbrace then
      (if c = rbrace then x :: stripCurlyGo none (c :: rest2)
       else stripCurlyGo (some [c]) rest2)
    else x :: stripCurlyGo none (c :: rest2)

def stripCurly (l : List Char) : List Char := stripCurlyGo none l

/-- The body conversion of `generateHTMLComponent`: `className=` back to
`class=` and every JSX expression group stripped. -/
def htmlBody (jsx : List Char) : List Char :=
  stripCurly (replaceAll "className=".data "class=".data jsx)

/-- `generateHTMLComponent`: the static HTML document around the converted
body. -/
def generateHTMLComponent (jsx : List Char) (componentName styling : String) : String :=
  "<!DOCTYPE html>\n<html lang=\"en\">\n<head>\n  <meta charset=\"UTF-8\">\n  <meta name=\"viewport\" content=\"width=device-width, initial-scale=1.0\">\n  <title>" ++
    componentName ++ "</title>\n  " ++
    (if styling = "tailwind" then "<script src=\"https://cdn.tailwindcss.com\"></script>"
      else "") ++
    "\n</head>\n<body>\n  " ++ String.mk (htmlBody jsx) ++ "\n</body>\n</html>"

set_option maxRecDepth 16000 in
/-- C6: `fill-opacity` translates to `fillOpacity`; `class` translates to
`className` (the react-side form, kept verbatim by the react adapter); and
on the html side the adapter rewrites `className=` back to `class=`, so
the html output uses `class=` and contains no `className`. -/
theorem C6_attribute_translation_scenarios :
    processAttributeNameS "fill-opacity" = "fillOpacity" ∧
    processAttributeNameS "class" = "className" ∧
    processStandardSvg "<svg class=\"a\" fill-opacity=\"0.5\"></svg>".data defaultOptions =
      "<svg className=\"a\" fillOpacity=\"0.5\"></svg>".data ∧
    occursIn "className=".data
      (processStandardSvg "<svg class=\"a\" fill-opacity=\"0.5\"></svg>".data defaultOptions) =
      true ∧
    occursIn "class=".data
      (htmlBody (processStandardSvg "<svg class=\"a\" fill-opacity=\"0.5\"></svg>".data
        defaultOptions)) = true ∧
    occursIn "className".data
      (htmlBody (processStandardSvg "<svg class=\"a\" fill-opacity=\"0.5\"></svg>".data
        defaultOptions)) = false ∧
    occursIn "class=".data
      (generateHTMLComponent (processStandardSvg "<svg class=\"a\" fill-opacity=\"0.5\"></svg>".data
        defaultOptions) "GeneratedComponent" "css").data = true ∧
    occursIn "className".data
      (generateHTMLComponent (processStandardSvg "<svg class=\"a\" fill-opacity=\"0.5\"></svg>".data
        defaultOptions) "GeneratedComponent" "css").data = false := by
  decide

/-! ## Well-formed tag documents and the chunking equivalence (C5)

A well-formed document alternates angle-bracket-free text with tags
`<body>` whose non-empty bodies are angle-bracket-free.  It is encoded as
a list of (text, tag body) pairs followed by a trailing text, which makes
the alternation structural. -/

def renderDoc : List (List Char × List Char) → List Char → List Char
  | [], tail => tail
  | (t, b) :: rest, tail => t ++ '<' :: (b ++ '>' :: renderDoc rest tail)

def angleFree (l : List Char) : Prop := '<' ∉ l ∧ '>' ∉ l

def WellFormedDoc (prs : List (List Char × List Char)) (tail : List Char) : Prop :=
  (∀ p ∈ prs, angleFree p.1 ∧ p.2 ≠ [] ∧ angleFree p.2) ∧ angleFree tail

/-- Whether the scanner accepts a tag with the given body: the character
after `<` must satisfy the class test. -/
def headKeep (q : Char → Bool) (b : List Char) : Bool :=
  match b.head? with
  | some c => q c
  | none => false

def renderTag (p : List Char × List Char) : List Char := '<' :: p.2 ++ ['>']

theorem scanAut_cons_ne (q : Char → Bool) {x : Char} (hx : ¬x = '<') (l : List Char) :
    scanAut q none (x :: l) = scanAut q none l := by
  rcases l with _ | ⟨c, r⟩
  · rfl
  · rw [scanAut, if_neg hx]

theorem scanAut_skip (q : Char → Bool) (t m : List Char) (ht : '<' ∉ t) :
    scanAut q none (t ++ m) = scanAut q none m := by
  induction t with
  | nil => rfl
  | cons x t' ih =>
    rw [List.cons_append,
      scanAut_cons_ne q (fun he => ht (he ▸ List.mem_cons_self x t')) _]
    exact ih (fun hmem => ht (List.mem_cons_of_mem _ hmem))

theorem scanAut_collect (q : Char → Bool) (mid : List Char) (hmid : '>' ∉ mid) :
    ∀ (acc m : List Char), scanAut q (some acc) (mid ++ '>' :: m) =
      (acc.reverse ++ mid ++ ['>']) :: scanAut q none m := by
  induction mid with
  | nil =>
    intro acc m
    show scanAut q (some acc) ('>' :: m) = _
    rw [scanAut, if_pos rfl]
    simp
  | cons y mid' ih =>
    intro acc m
    have hy : ¬y = '>' := fun he => hmid (he ▸ List.mem_cons_self _ _)
    rw [List.cons_append, scanAut, if_neg hy,
      ih (fun hmem => hmid (List.mem_cons_of_mem _ hmem)) (y :: acc) m]
    simp

theorem scanAut_tag (q : Char → Bool) (b : List Char) (hb : b ≠ []) (hlt : '<' ∉ b)
    (hgt : '>' ∉ b) (m : List Char) :
    scanAut q none ('<' :: (b ++ '>' :: m)) =
      if headKeep q b then ('<' :: b ++ ['>']) :: scanAut q none m
      else scanAut q none m := by
  rcases b with _ | ⟨c, btail⟩
  · exact absurd rfl hb
  · rw [List.cons_append, scanAut, if_pos rfl]
    by_cases hq : q c = true
    · rw [if_pos hq,
        scanAut_collect q btail (fun hmem => hgt (List.mem_cons_of_mem _ hmem)) [c, '<'] m]
      have hk : headKeep q (c :: btail) = true := by
        simp [headKeep, hq]
      rw [if_pos hk]
      simp
    · rw [if_neg hq]
      have hk : ¬headKeep q (c :: btail) = true := by
        simp [headKeep, hq]
      rw [if_neg hk]
      have hfree : '<' ∉ c :: (btail ++ ['>']) := by
        intro hmem
        rcases List.mem_cons.mp hmem with he | hmem2
        · exact hlt (he ▸ List.mem_cons_self _ _)
        · rcases List.mem_append.mp hmem2 with hmem3 | hmem4
          · exact hlt (List.mem_cons_of_mem _ hmem3)
          · simp at hmem4
      have := scanAut_skip q (c :: (btail ++ ['>'])) m hfree
      simpa using this

theorem scanAut_renderDoc (q : Char → Bool) (prs : List (List Char × List Char))
    (tail : List Char) (hwf : WellFormedDoc prs tail) :
    scanAut q none (renderDoc prs tail) =
      (prs.filter (fun p => headKeep q p.2)).map renderTag := by
  induction prs with
  | nil =>
    have h := scanAut_skip q tail [] hwf.2.1
    rw [List.append_nil] at h
    rw [renderDoc, h]
    rfl
  | cons p prs' ih =>
    obtain ⟨t, b⟩ := p
    have hp := hwf.1 (t, b) (List.mem_cons_self _ _)
    rw [renderDoc, scanAut_skip q t _ hp.1.1,
      scanAut_tag q b hp.2.1 hp.2.2.1 hp.2.2.2 (renderDoc prs' tail),
      ih ⟨fun r hr => hwf.1 r (List.mem_cons_of_mem _ hr), hwf.2⟩]
    by_cases hk : headKeep q b = true
    · rw [if_pos hk]
      simp [List.filter_cons, hk, renderTag]
    · rw [if_neg hk]
      simp only [List.filter_cons]
      rw [if_neg (by simpa using hk)]

theorem countElements_renderDoc (prs : List (List Char × List Char)) (tail : List Char)
    (hwf : WellFormedDoc prs tail) :
    countElements (renderDoc prs tail) =
      (prs.filter (fun p => headKeep (fun c => !(c = '/')) p.2)).length := by
  rw [countElements, openTagMatches, scanAut_renderDoc _ _ _ hwf, List.length_map]

theorem elementMatches_renderDoc (prs : List (List Char × List Char)) (tail : List Char)
    (hwf : WellFormedDoc prs tail) :
    elementMatches (renderDoc prs tail) = prs.map renderTag := by
  rw [elementMatches, scanAut_renderDoc _ _ _ hwf]
  congr 1
  apply List.filter_eq_self.mpr
  intro p hp
  have hwfp := hwf.1 p hp
  rcases hb : p.2 with _ | ⟨c, bt⟩
  · exact absurd hb hwfp.2.1
  · have hc : ¬c = '>' := by
      intro he
      exact hwfp.2.2.2 (hb ▸ (he ▸ List.mem_cons_self _ _))
    simp [headKeep, hb, hc]


/-! ## Distribution of literal replacement over safe boundaries

A replacement occurrence that straddled the boundary of `a ++ b` would
contain both the last character of `a` and the first character of `b`, so
either of those lying outside the pattern makes the replacement
distribute. -/

theorem repGo_eq_drop (pat rep : List Char) : ∀ (k : Nat) (l : List Char),
    repGo pat rep k l = repGo pat rep 0 (l.drop k) := by
  intro k
  induction k with
  | zero => intro l; rw [List.drop_zero]
  | succ k' ih =>
    intro l
    rcases l with _ | ⟨x, rest⟩
    · rfl
    · rw [repGo, ih rest, List.drop_succ_cons]

theorem replaceAll_cons (pat rep : List Char) (x : Char) (rest : List Char) :
    replaceAll pat rep (x :: rest) =
      if pat.isPrefixOf (x :: rest) then
        rep ++ replaceAll pat rep (rest.drop (pat.length - 1))
      else x :: replaceAll pat rep rest := by
  rw [replaceAll, repGo]
  split
  · rw [repGo_eq_drop, replaceAll]
  · rw [replaceAll]

theorem replaceAll_nil (pat rep : List Char) : replaceAll pat rep [] = [] := rfl

theorem replaceAll_ne_nil (pat rep : List Char) (hrep : rep ≠ []) {l : List Char}
    (hl : l ≠ []) : replaceAll pat rep l ≠ [] := by
  rcases l with _ | ⟨x, rest⟩
  · exact absurd rfl hl
  · rw [replaceAll_cons]
    split
    · simp [hrep]
    · simp

theorem replaceAll_head (pat rep : List Char) (hpat : pat ≠ [])
    (hpr : rep.head? = pat.head?)
    (l : List Char) : (replaceAll pat rep l).head? = l.head? := by
  rcases l with _ | ⟨x, rest⟩
  · rfl
  · rw [replaceAll_cons]
    split
    · rename_i hpre
      rcases pat with _ | ⟨p0, pat'⟩
      · exact absurd rfl hpat
      · have hx : p0 = x := by
          have hp := List.prefix_iff_eq_take.mp (List.isPrefixOf_iff_prefix.mp hpre)
          rw [List.length_cons, List.take_succ_cons] at hp
          exact (List.cons_eq_cons.mp hp).1
        rcases rep with _ | ⟨r0, rep'⟩
        · simp at hpr
        · simp only [List.head?_cons, Option.some_inj] at hpr
          simp only [List.cons_append, List.head?_cons, Option.some_inj]
          rw [hpr, hx]
    · simp

theorem mem_of_getLast?_eq {l : List Char} {c : Char} (h : l.getLast? = some c) : c ∈ l := by
  obtain ⟨hne, he⟩ := List.mem_getLast?_eq_getLast (Option.mem_def.mpr h)
  rw [he]
  exact List.getLast_mem hne

theorem getLast?_cons_of_ne_nil {x : Char} {rest : List Char} (h : rest ≠ []) :
    (x :: rest).getLast? = rest.getLast? := by
  have := List.getLast?_append_of_ne_nil ([x] : List Char) h
  simpa using this

theorem getLast?_drop_of_ne_nil {l : List Char} {n : Nat} (h : l.drop n ≠ []) :
    (l.drop n).getLast? = l.getLast? := by
  conv_rhs => rw [← List.take_append_drop n l]
  rw [List.getLast?_append_of_ne_nil _ h]

theorem replaceAll_getLast (pat rep : List Char) (hpat : pat ≠ []) (hrep : rep ≠ [])
    (hpr : rep.getLast? = pat.getLast?) :
    ∀ l, (replaceAll pat rep l).getLast? = l.getLast? := by
  suffices H : ∀ n l, l.length ≤ n → (replaceAll pat rep l).getLast? = l.getLast? from
    fun l => H l.length l le_rfl
  intro n
  induction n with
  | zero =>
    intro l hl
    have he : l = [] := List.eq_nil_of_length_eq_zero (Nat.le_zero.mp hl)
    subst he
    rfl
  | succ n ih =>
    intro l hl
    rcases l with _ | ⟨x, rest⟩
    · rfl
    · rw [replaceAll_cons]
      split
      · rename_i hpre
        by_cases hr : rest.drop (pat.length - 1) = []
        · rw [hr, replaceAll_nil, List.append_nil]
          have hple : (x :: rest).length ≤ pat.length := by
            have hd := List.drop_eq_nil_iff.mp hr
            have h1 : 1 ≤ pat.length := by
              rcases pat with _ | _
              · exact absurd rfl hpat
              · simp
            simp only [List.length_cons]
            omega
          have hpeq : pat = x :: rest :=
            (List.isPrefixOf_iff_prefix.mp hpre).eq_of_length_le hple
          rw [hpr, hpeq]
        · have hlen : (rest.drop (pat.length - 1)).length ≤ n := by
            have hld := List.length_drop (pat.length - 1) rest
            simp only [List.length_cons] at hl
            omega
          rw [List.getLast?_append_of_ne_nil _ (replaceAll_ne_nil pat rep hrep hr),
            ih _ hlen, getLast?_drop_of_ne_nil hr]
          have hrest : rest ≠ [] := by
            intro he
            rw [he] at hr
            simp at hr
          rw [getLast?_cons_of_ne_nil hrest]
      · rcases rest with _ | ⟨y, rest'⟩
        · rw [replaceAll_nil]
        · have hne : replaceAll pat rep (y :: rest') ≠ [] :=
            replaceAll_ne_nil pat rep hrep (by simp)
          rw [getLast?_cons_of_ne_nil hne,
            getLast?_cons_of_ne_nil (by simp : (y :: rest') ≠ ([] : List Char))]
          exact ih _ (by simp only [List.length_cons] at hl ⊢; omega)

theorem replaceAll_append_of_head (pat rep : List Char) (_hpat : pat ≠ []) :
    ∀ (n : Nat) (a b : List Char), a.length ≤ n → (∀ c, b.head? = some c → c ∉ pat) →
      replaceAll pat rep (a ++ b) = replaceAll pat rep a ++ replaceAll pat rep b := by
  intro n
  induction n with
  | zero =>
    intro a b hle _
    have ha : a = [] := List.eq_nil_of_length_eq_zero (Nat.le_zero.mp hle)
    subst ha
    simp [replaceAll_nil]
  | succ n ih =>
    intro a b hle hb
    rcases a with _ | ⟨x, a'⟩
    · simp [replaceAll_nil]
    · rw [List.cons_append, replaceAll_cons, replaceAll_cons]
      by_cases hpre : pat.isPrefixOf (x :: (a' ++ b)) = true
      all_goals have hpre2 : pat.isPrefixOf ((x :: a') ++ b) = true ↔
        pat.isPrefixOf (x :: (a' ++ b)) = true := by rw [List.cons_append]
      · have hple : pat.length ≤ (x :: a').length := by
          by_contra hgt
          push_neg at hgt
          have htake := List.prefix_iff_eq_take.mp
            (List.isPrefixOf_iff_prefix.mp (hpre2.mpr hpre))
          rw [List.take_append_eq_append_take,
            List.take_of_length_le (le_of_lt hgt)] at htake
          rcases b with _ | ⟨c, b'⟩
          · rw [List.take_nil, List.append_nil] at htake
            rw [htake] at hgt
            simp at hgt
          · have hc : c ∈ pat := by
              rw [htake]
              apply List.mem_append_right
              rcases hk' : pat.length - (x :: a').length with _ | k
              · omega
              · rw [List.take_succ_cons]
                exact List.mem_cons_self _ _
            exact hb c rfl hc
        have hpre' : pat.isPrefixOf (x :: a') = true := by
          rw [List.isPrefixOf_iff_prefix]
          exact List.prefix_of_prefix_length_le
            (List.isPrefixOf_iff_prefix.mp (hpre2.mpr hpre))
            (List.prefix_append _ _) hple
        rw [if_pos hpre, if_pos hpre']
        have hdrop : (a' ++ b).drop (pat.length - 1) = a'.drop (pat.length - 1) ++ b := by
          rw [List.drop_append_eq_append_drop]
          have hz : pat.length - 1 - a'.length = 0 := by
            simp only [List.length_cons] at hple
            omega
          rw [hz, List.drop_zero]
        rw [hdrop,
          ih (a'.drop (pat.length - 1)) b
            (by
              have := List.length_drop (pat.length - 1) a'
              simp only [List.length_cons] at hle
              omega) hb]
        simp [List.append_assoc]
      · have hpre' : ¬pat.isPrefixOf (x :: a') = true := by
          intro hp
          apply hpre
          apply hpre2.mp
          rw [List.isPrefixOf_iff_prefix] at hp ⊢
          exact hp.trans (List.prefix_append _ _)
        rw [if_neg hpre, if_neg hpre', List.cons_append,
          ih a' b (by simp only [List.length_cons] at hle; omega) hb]

theorem replaceAll_append_of_last (pat rep : List Char) (_hpat : pat ≠ []) :
    ∀ (n : Nat) (a b : List Char), a.length ≤ n → (∀ c, a.getLast? = some c → c ∉ pat) →
      replaceAll pat rep (a ++ b) = replaceAll pat rep a ++ replaceAll pat rep b := by
  intro n
  induction n with
  | zero =>
    intro a b hle _
    have ha : a = [] := List.eq_nil_of_length_eq_zero (Nat.le_zero.mp hle)
    subst ha
    simp [replaceAll_nil]
  | succ n ih =>
    intro a b hle ha
    rcases a with _ | ⟨x, a'⟩
    · simp [replaceAll_nil]
    · rw [List.cons_append, replaceAll_cons, replaceAll_cons]
      by_cases hpre : pat.isPrefixOf (x :: (a' ++ b)) = true
      all_goals have hpre2 : pat.isPrefixOf ((x :: a') ++ b) = true ↔
        pat.isPrefixOf (x :: (a' ++ b)) = true := by rw [List.cons_append]
      · have hple : pat.length ≤ (x :: a').length := by
          by_contra hgt
          push_neg at hgt
          have htake := List.prefix_iff_eq_take.mp
            (List.isPrefixOf_iff_prefix.mp (hpre2.mpr hpre))
          rw [List.take_append_eq_append_take,
            List.take_of_length_le (le_of_lt hgt)] at htake
          obtain ⟨g, hg⟩ : ∃ g, (x :: a').getLast? = some g := by
            rcases hgl : (x :: a').getLast? with _ | g
            · rw [List.getLast?_eq_none_iff] at hgl
              simp at hgl
            · exact ⟨g, rfl⟩
          have hgmem : g ∈ pat := by
            rw [htake]
            exact List.mem_append_left _ (mem_of_getLast?_eq hg)
          exact ha g hg hgmem
        have hpre' : pat.isPrefixOf (x :: a') = true := by
          rw [List.isPrefixOf_iff_prefix]
          exact List.prefix_of_prefix_length_le
            (List.isPrefixOf_iff_prefix.mp (hpre2.mpr hpre))
            (List.prefix_append _ _) hple
        rw [if_pos hpre, if_pos hpre']
        have hdrop : (a' ++ b).drop (pat.length - 1) = a'.drop (pat.length - 1) ++ b := by
          rw [List.drop_append_eq_append_drop]
          have hz : pat.length - 1 - a'.length = 0 := by
            simp only [List.length_cons] at hple
            omega
          rw [hz, List.drop_zero]
        rw [hdrop]
        by_cases hnil : a'.drop (pat.length - 1) = []
        · rw [hnil]
          simp [replaceAll_nil]
        · rw [ih (a'.drop (pat.length - 1)) b
            (by
              have := List.length_drop (pat.length - 1) a'
              simp only [List.length_cons] at hle
              omega)
            (by
              intro c hc
              apply ha c
              rw [getLast?_drop_of_ne_nil hnil] at hc
              have ha' : a' ≠ [] := by
                intro he
                rw [he] at hnil
                simp at hnil
              rw [getLast?_cons_of_ne_nil ha']
              exact hc)]
          simp [List.append_assoc]
      · have hpre' : ¬pat.isPrefixOf (x :: a') = true := by
          intro hp
          apply hpre
          apply hpre2.mp
          rw [List.isPrefixOf_iff_prefix] at hp ⊢
          exact hp.trans (List.prefix_append _ _)
        rw [if_neg hpre, if_neg hpre', List.cons_append]
        rcases a' with _ | ⟨y, a''⟩
        · simp [replaceAll_nil]
        · rw [ih (y :: a'') b (by simp only [List.length_cons] at hle ⊢; omega)
            (by
              intro c hc
              apply ha c
              rw [getLast?_cons_of_ne_nil (by simp : (y :: a'') ≠ ([] : List Char))]
              exact hc)]

theorem mem_replaceAll (pat rep : List Char) {c : Char} :
    ∀ (n : Nat) (l : List Char), l.length ≤ n → c ∈ replaceAll pat rep l → c ∈ l ∨ c ∈ rep := by
  intro n
  induction n with
  | zero =>
    intro l hle hc
    have he : l = [] := List.eq_nil_of_length_eq_zero (Nat.le_zero.mp hle)
    subst he
    rw [replaceAll_nil] at hc
    exact absurd hc (List.not_mem_nil _)
  | succ n ih =>
    intro l hle hc
    rcases l with _ | ⟨x, rest⟩
    · rw [replaceAll_nil] at hc
      exact absurd hc (List.not_mem_nil _)
    · rw [replaceAll_cons] at hc
      split at hc
      · rcases List.mem_append.mp hc with hr | hrec
        · exact Or.inr hr
        · rcases ih (rest.drop (pat.length - 1))
            (by
              have := List.length_drop (pat.length - 1) rest
              simp only [List.length_cons] at hle
              omega) hrec with hm | hr
          · exact Or.inl (List.mem_cons_of_mem _ (List.mem_of_mem_drop hm))
          · exact Or.inr hr
      · rcases List.mem_cons.mp hc with he | hrec
        · exact Or.inl (he ▸ List.mem_cons_self _ _)
        · rcases ih rest (by simp only [List.length_cons] at hle; omega) hrec with hm | hr
          · exact Or.inl (List.mem_cons_of_mem _ hm)
          · exact Or.inr hr

/-- The single generic shape of the rename fold used to transport
per-pattern facts through the thirteen chained replacements. -/
def renameFold (L : List (List Char × List Char)) (l : List Char) : List Char :=
  L.foldl (fun acc pr => replaceAll pr.1 pr.2 acc) l

theorem applyRenames_eq_renameFold (l : List Char) :
    applyRenames l = renameFold svgJsxRenames l := rfl

theorem renameFold_head (L : List (List Char × List Char))
    (hL : ∀ pr ∈ L, pr.1 ≠ [] ∧ pr.2.head? = pr.1.head?) :
    ∀ l, (renameFold L l).head? = l.head? := by
  induction L with
  | nil => intro l; rfl
  | cons pr L' ih =>
    intro l
    obtain ⟨h1, h3⟩ := hL pr (List.mem_cons_self _ _)
    rw [renameFold, List.foldl_cons]
    rw [show List.foldl (fun acc pr => replaceAll pr.1 pr.2 acc)
        (replaceAll pr.1 pr.2 l) L' = renameFold L' (replaceAll pr.1 pr.2 l) from rfl]
    rw [ih (fun r hr => hL r (List.mem_cons_of_mem _ hr)) _]
    exact replaceAll_head pr.1 pr.2 h1 h3 l

theorem renameFold_getLast (L : List (List Char × List Char))
    (hL : ∀ pr ∈ L, pr.1 ≠ [] ∧ pr.2 ≠ [] ∧ pr.2.getLast? = pr.1.getLast?) :
    ∀ l, (renameFold L l).getLast? = l.getLast? := by
  induction L with
  | nil => intro l; rfl
  | cons pr L' ih =>
    intro l
    obtain ⟨h1, h2, h4⟩ := hL pr (List.mem_cons_self _ _)
    rw [renameFold, List.foldl_cons]
    rw [show List.foldl (fun acc pr => replaceAll pr.1 pr.2 acc)
        (replaceAll pr.1 pr.2 l) L' = renameFold L' (replaceAll pr.1 pr.2 l) from rfl]
    rw [ih (fun r hr => hL r (List.mem_cons_of_mem _ hr)) _]
    exact replaceAll_getLast pr.1 pr.2 h1 h2 h4 l

theorem renameFold_append (L : List (List Char × List Char))
    (hL : ∀ pr ∈ L, pr.1 ≠ [] ∧ pr.2 ≠ [] ∧ pr.2.head? = pr.1.head? ∧
      pr.2.getLast? = pr.1.getLast?) :
    ∀ (a b : List Char),
      ((∃ c, b.head? = some c ∧ ∀ pr ∈ L, c ∉ pr.1) ∨
        (∃ c, a.getLast? = some c ∧ ∀ pr ∈ L, c ∉ pr.1)) →
      renameFold L (a ++ b) = renameFold L a ++ renameFold L b := by
  induction L with
  | nil => intro a b _; rfl
  | cons pr L' ih =>
    intro a b hcase
    obtain ⟨h1, h2, h3, h4⟩ := hL pr (List.mem_cons_self _ _)
    have hL' : ∀ r ∈ L', r.1 ≠ [] ∧ r.2 ≠ [] ∧ r.2.head? = r.1.head? ∧
        r.2.getLast? = r.1.getLast? := fun r hr => hL r (List.mem_cons_of_mem _ hr)
    rw [renameFold, List.foldl_cons]
    rcases hcase with ⟨c, hc, hcn⟩ | ⟨c, hc, hcn⟩
    · rw [replaceAll_append_of_head pr.1 pr.2 h1 a.length a b le_rfl
        (fun d hd => by
          rw [hc] at hd
          exact (Option.some_inj.mp hd) ▸ hcn pr (List.mem_cons_self _ _))]
      rw [show List.foldl (fun acc pr => replaceAll pr.1 pr.2 acc)
          (replaceAll pr.1 pr.2 a ++ replaceAll pr.1 pr.2 b) L' =
          renameFold L' (replaceAll pr.1 pr.2 a ++ replaceAll pr.1 pr.2 b) from rfl]
      rw [ih hL' _ _ (Or.inl ⟨c, by rw [replaceAll_head pr.1 pr.2 h1 h3 b]; exact hc,
        fun r hr => hcn r (List.mem_cons_of_mem _ hr)⟩)]
      rfl
    · rw [replaceAll_append_of_last pr.1 pr.2 h1 a.length a b le_rfl
        (fun d hd => by
          rw [hc] at hd
          exact (Option.some_inj.mp hd) ▸ hcn pr (List.mem_cons_self _ _))]
      rw [show List.foldl (fun acc pr => replaceAll pr.1 pr.2 acc)
          (replaceAll pr.1 pr.2 a ++ replaceAll pr.1 pr.2 b) L' =
          renameFold L' (replaceAll pr.1 pr.2 a ++ replaceAll pr.1 pr.2 b) from rfl]
      rw [ih hL' _ _ (Or.inr ⟨c, by rw [replaceAll_getLast pr.1 pr.2 h1 h2 h4 a]; exact hc,
        fun r hr => hcn r (List.mem_cons_of_mem _ hr)⟩)]
      rfl

theorem svgJsxRenames_shape :
    ∀ pr ∈ svgJsxRenames, pr.1 ≠ [] ∧ pr.2 ≠ [] ∧ pr.2.head? = pr.1.head? ∧
      pr.2.getLast? = pr.1.getLast? := by decide

theorem svgJsxRenames_no_angle :
    ∀ pr ∈ svgJsxRenames, '<' ∉ pr.1 ∧ '>' ∉ pr.1 ∧ '<' ∉ pr.2 ∧ '>' ∉ pr.2 := by decide

/-- The thirteen renames distribute over a boundary guarded by an angle
bracket on either side. -/
theorem applyRenames_append (a b : List Char)
    (h : b.head? = some '<' ∨ b.head? = some '>' ∨
      a.getLast? = some '<' ∨ a.getLast? = some '>') :
    applyRenames (a ++ b) = applyRenames a ++ applyRenames b := by
  rw [applyRenames_eq_renameFold, applyRenames_eq_renameFold, applyRenames_eq_renameFold]
  apply renameFold_append svgJsxRenames svgJsxRenames_shape
  rcases h with h | h | h | h
  · exact Or.inl ⟨'<', h, fun pr hpr => (svgJsxRenames_no_angle pr hpr).1⟩
  · exact Or.inl ⟨'>', h, fun pr hpr => (svgJsxRenames_no_angle pr hpr).2.1⟩
  · exact Or.inr ⟨'<', h, fun pr hpr => (svgJsxRenames_no_angle pr hpr).1⟩
  · exact Or.inr ⟨'>', h, fun pr hpr => (svgJsxRenames_no_angle pr hpr).2.1⟩

theorem applyRenames_head (l : List Char) : (applyRenames l).head? = l.head? := by
  rw [applyRenames_eq_renameFold]
  exact renameFold_head svgJsxRenames
    (fun pr hpr => ⟨(svgJsxRenames_shape pr hpr).1, (svgJsxRenames_shape pr hpr).2.2.1⟩) l

theorem applyRenames_getLast (l : List Char) : (applyRenames l).getLast? = l.getLast? := by
  rw [applyRenames_eq_renameFold]
  exact renameFold_getLast svgJsxRenames
    (fun pr hpr => ⟨(svgJsxRenames_shape pr hpr).1, (svgJsxRenames_shape pr hpr).2.1,
      (svgJsxRenames_shape pr hpr).2.2.2⟩) l

theorem renameFold_angleFree (L : List (List Char × List Char))
    (hL : ∀ pr ∈ L, '<' ∉ pr.2 ∧ '>' ∉ pr.2) :
    ∀ l, angleFree l → angleFree (renameFold L l) := by
  induction L with
  | nil => intro l hl; exact hl
  | cons pr L' ih =>
    intro l hl
    rw [renameFold, List.foldl_cons]
    rw [show List.foldl (fun acc pr => replaceAll pr.1 pr.2 acc)
        (replaceAll pr.1 pr.2 l) L' = renameFold L' (replaceAll pr.1 pr.2 l) from rfl]
    apply ih (fun r hr => hL r (List.mem_cons_of_mem _ hr))
    obtain ⟨hlt, hgt⟩ := hL pr (List.mem_cons_self _ _)
    constructor
    · intro hmem
      rcases mem_replaceAll pr.1 pr.2 l.length l le_rfl hmem with hm | hm
      · exact hl.1 hm
      · exact hlt hm
    · intro hmem
      rcases mem_replaceAll pr.1 pr.2 l.length l le_rfl hmem with hm | hm
      · exact hl.2 hm
      · exact hgt hm

theorem applyRenames_angleFree {l : List Char} (hl : angleFree l) :
    angleFree (applyRenames l) := by
  rw [applyRenames_eq_renameFold]
  exact renameFold_angleFree svgJsxRenames
    (fun pr hpr => ⟨(svgJsxRenames_no_angle pr hpr).2.2.1,
      (svgJsxRenames_no_angle pr hpr).2.2.2⟩) l hl

theorem renameFold_ne_nil (L : List (List Char × List Char))
    (hL : ∀ pr ∈ L, pr.1 ≠ [] ∧ pr.2.head? = pr.1.head?)
    {l : List Char} (hl : l ≠ []) : renameFold L l ≠ [] := by
  intro he
  have hh := renameFold_head L hL l
  rw [he] at hh
  rcases l with _ | ⟨x, rest⟩
  · exact hl rfl
  · simp at hh

theorem applyRenames_ne_nil {l : List Char} (hl : l ≠ []) : applyRenames l ≠ [] := by
  rw [applyRenames_eq_renameFold]
  exact renameFold_ne_nil svgJsxRenames
    (fun pr hpr => ⟨(svgJsxRenames_shape pr hpr).1, (svgJsxRenames_shape pr hpr).2.2.1⟩) hl

theorem applyRenames_nil : applyRenames [] = [] := rfl

theorem processChunk_eq : processChunk = applyRenames := rfl

/-- `applyRenames` maps over a concatenation of pieces that each start with
an opening bracket. -/
theorem flatten_map_applyRenames :
    ∀ (es : List (List Char)), (∀ e ∈ es, e.head? = some ('<' : Char)) →
      (es.map applyRenames).flatten = applyRenames es.flatten := by
  intro es
  induction es with
  | nil => intro _; rfl
  | cons e es' ih =>
    intro h
    rw [List.map_cons, List.flatten_cons, List.flatten_cons]
    rcases es' with _ | ⟨f, es''⟩
    · simp [applyRenames_nil]
    · have hf := h f (List.mem_cons_of_mem _ (List.mem_cons_self _ _))
      have hhead : ((f :: es'').flatten).head? = some ('<' : Char) := by
        rcases f with _ | ⟨c, ft⟩
        · simp at hf
        · have hc : c = '<' := by simpa using hf
          subst hc
          rfl
      rw [applyRenames_append e ((f :: es'').flatten) (Or.inl hhead),
        ih (fun g hg => h g (List.mem_cons_of_mem _ hg))]

/-- The fold step of `chunkByElements`. -/
def chunkStep (maxChunkSize : Nat) (st : List (List Char) × List Char)
    (el : List Char) : List (List Char) × List Char :=
  if st.2.length + el.length > maxChunkSize && !st.2.isEmpty then (st.1 ++ [st.2], el)
  else (st.1, st.2 ++ el)

/-- The final flush of `chunkByElements`. -/
def chunkFinalize (st : List (List Char) × List Char) : List (List Char) :=
  if st.2.isEmpty then st.1 else st.1 ++ [st.2]

theorem chunkByElements_eq (maxCS : Nat) (l : List Char) :
    chunkByElements maxCS l =
      chunkFinalize ((elementMatches l).foldl (chunkStep maxCS) ([], [])) := rfl

/-- Reassembling the chunks of the element fold restores the concatenation
of the matched elements. -/
theorem chunkFold_flatten (maxCS : Nat) :
    ∀ (es : List (List Char)) (st : List (List Char) × List Char),
      (chunkFinalize (es.foldl (chunkStep maxCS) st)).flatten =
        st.1.flatten ++ st.2 ++ es.flatten := by
  intro es
  induction es with
  | nil =>
    intro st
    obtain ⟨chs, cur⟩ := st
    rw [List.foldl_nil]
    rcases cur with _ | ⟨x, xs⟩
    · simp [chunkFinalize]
    · simp [chunkFinalize]
  | cons e es' ih =>
    intro st
    rw [List.foldl_cons, ih]
    have hstep : (chunkStep maxCS st e).1.flatten ++ (chunkStep maxCS st e).2 =
        st.1.flatten ++ st.2 ++ e := by
      simp only [chunkStep]
      split
      · simp
      · simp [List.append_assoc]
    rw [hstep, List.flatten_cons]
    simp [List.append_assoc]

/-- Every chunk the element fold emits starts with an opening bracket, as
long as every element does. -/
theorem chunkFold_head (maxCS : Nat) :
    ∀ (es : List (List Char)) (st : List (List Char) × List Char),
      (∀ e ∈ es, e.head? = some ('<' : Char)) →
      (∀ ch ∈ st.1, ch.head? = some ('<' : Char)) →
      (st.2 = [] ∨ st.2.head? = some ('<' : Char)) →
      ∀ ch ∈ chunkFinalize (es.foldl (chunkStep maxCS) st),
        ch.head? = some ('<' : Char) := by
  intro es
  induction es with
  | nil =>
    intro st _ h1 h2 ch hch
    obtain ⟨chs, cur⟩ := st
    rw [List.foldl_nil] at hch
    rcases cur with _ | ⟨x, xs⟩
    · exact h1 ch (by simpa [chunkFinalize] using hch)
    · have hch2 : ch ∈ chs ++ [x :: xs] := by simpa [chunkFinalize] using hch
      rcases List.mem_append.mp hch2 with hm | hm
      · exact h1 ch hm
      · have hEq : ch = x :: xs := by simpa using hm
        subst hEq
        rcases h2 with he | hh
        · exact absurd he (by simp)
        · exact hh
  | cons e es' ih =>
    intro st hes h1 h2
    rw [List.foldl_cons]
    refine ih (chunkStep maxCS st e) (fun g hg => hes g (List.mem_cons_of_mem _ hg)) ?_ ?_
    · intro ch hch
      simp only [chunkStep] at hch
      split at hch
      · next hcond =>
        rcases List.mem_append.mp hch with hm | hm
        · exact h1 ch hm
        · have hEq : ch = st.2 := by simpa using hm
          subst hEq
          rcases h2 with he | hh
          · rw [he] at hcond
            simp at hcond
          · exact hh
      · exact h1 ch hch
    · simp only [chunkStep]
      split
      · exact Or.inr (hes e (List.mem_cons_self _ _))
      · rcases h2 with he | hh
        · rw [he, List.nil_append]
          exact Or.inr (hes e (List.mem_cons_self _ _))
        · right
          rcases hcur : st.2 with _ | ⟨y, ys⟩
          · rw [hcur] at hh
            simp at hh
          · rw [hcur] at hh
            simpa using hh

/-- The chunked pipeline — group element matches, rename per chunk,
concatenate — is the renames applied to the concatenated matches. -/
theorem chunked_pipeline_eq (maxCS : Nat) (l : List Char)
    (h : ∀ e ∈ elementMatches l, e.head? = some ('<' : Char)) :
    ((chunkByElements maxCS l).map processChunk).flatten =
      applyRenames (elementMatches l).flatten := by
  have hheads := chunkFold_head maxCS (elementMatches l) ([], []) h
    (fun ch hch => absurd hch (List.not_mem_nil _)) (Or.inl rfl)
  rw [processChunk_eq, chunkByElements_eq,
    flatten_map_applyRenames _ hheads, chunkFold_flatten]
  simp

/-- Concatenating the rendered tags is rendering the document with the
inter-tag text removed. -/
theorem flatten_map_renderTag (prs : List (List Char × List Char)) :
    (prs.map renderTag).flatten =
      renderDoc (prs.map (fun p => (([] : List Char), p.2))) [] := by
  induction prs with
  | nil => rfl
  | cons p rest ih =>
    rw [List.map_cons, List.flatten_cons, List.map_cons, ih]
    simp [renderTag, renderDoc, List.append_assoc]

/-- The renames act piecewise on a rendered document: the bracket characters
delimiting each tag are on neither side of any pattern. -/
theorem applyRenames_renderDoc :
    ∀ (prs : List (List Char × List Char)) (tail : List Char),
      applyRenames (renderDoc prs tail) =
        renderDoc (prs.map (fun p => (applyRenames p.1, applyRenames p.2)))
          (applyRenames tail) := by
  intro prs
  induction prs with
  | nil => intro tail; rfl
  | cons p rest ih =>
    intro tail
    obtain ⟨t, b⟩ := p
    have h1 : applyRenames (t ++ '<' :: (b ++ '>' :: renderDoc rest tail)) =
        applyRenames t ++ applyRenames ('<' :: (b ++ '>' :: renderDoc rest tail)) :=
      applyRenames_append _ _ (Or.inl rfl)
    have h2 : applyRenames ('<' :: (b ++ '>' :: renderDoc rest tail)) =
        applyRenames ['<'] ++ applyRenames (b ++ '>' :: renderDoc rest tail) :=
      applyRenames_append ['<'] _ (Or.inr (Or.inr (Or.inl rfl)))
    have h3 : applyRenames (b ++ '>' :: renderDoc rest tail) =
        applyRenames b ++ applyRenames ('>' :: renderDoc rest tail) :=
      applyRenames_append _ _ (Or.inr (Or.inl rfl))
    have h4 : applyRenames ('>' :: renderDoc rest tail) =
        applyRenames ['>'] ++ applyRenames (renderDoc rest tail) :=
      applyRenames_append ['>'] _ (Or.inr (Or.inr (Or.inr rfl)))
    have hlb : applyRenames ['<'] = ['<'] := by decide
    have hrb : applyRenames ['>'] = ['>'] := by decide
    show applyRenames (t ++ '<' :: (b ++ '>' :: renderDoc rest tail)) = _
    rw [h1, h2, h3, h4, hlb, hrb, ih tail]
    rfl

set_option maxHeartbeats 1600000 in
/-- Renaming each component of a well-formed document keeps it well
formed. -/
theorem WellFormedDoc_applyRenames (prs : List (List Char × List Char))
    (tail : List Char) (hwf : WellFormedDoc prs tail) :
    WellFormedDoc (prs.map (fun p => (applyRenames p.1, applyRenames p.2)))
      (applyRenames tail) := by
  constructor
  · intro p hp
    obtain ⟨r, hr, rfl⟩ := List.mem_map.mp hp
    obtain ⟨h1, h2, h3⟩ := hwf.1 r hr
    exact ⟨applyRenames_angleFree h1, applyRenames_ne_nil h2, applyRenames_angleFree h3⟩
  · exact applyRenames_angleFree hwf.2

/-- Dropping the inter-tag text of a well-formed document keeps it well
formed. -/
theorem WellFormedDoc_strip (prs : List (List Char × List Char))
    (tail : List Char) (hwf : WellFormedDoc prs tail) :
    WellFormedDoc (prs.map (fun p => (([] : List Char), p.2))) [] := by
  constructor
  · intro p hp
    obtain ⟨r, hr, rfl⟩ := List.mem_map.mp hp
    exact ⟨⟨List.not_mem_nil _, List.not_mem_nil _⟩,
      (hwf.1 r hr).2.1, (hwf.1 r hr).2.2⟩
  · exact ⟨List.not_mem_nil _, List.not_mem_nil _⟩

theorem headKeep_applyRenames (q : Char → Bool) (b : List Char) :
    headKeep q (applyRenames b) = headKeep q b := by
  unfold headKeep
  rw [applyRenames_head]

/-- Mapping a transformation that preserves the scanner acceptance of the
tag body keeps the number of accepted tags. -/
theorem filter_headKeep_map (q : Char → Bool) (prs : List (List Char × List Char))
    (f : List Char × List Char → List Char × List Char)
    (hf : ∀ p, headKeep q (f p).2 = headKeep q p.2) :
    ((prs.map f).filter (fun p => headKeep q p.2)).length =
      (prs.filter (fun p => headKeep q p.2)).length := by
  rw [List.filter_map, List.length_map]
  congr 1
  apply List.filter_congr
  intro p _
  exact hf p

/-- The concrete well-formed three-tag document used to witness the amended
chunking equivalence. -/
def W5prs : List (List Char × List Char) :=
  [([], "svg".data), ([], "rect".data), ([], "/svg".data)]

set_option maxRecDepth 8000 in
/-- C5 counterexample: the document `<svg><>a></svg>` is far under the size
ceiling, yet chunking it at chunk size 4 (forcing the element-boundary
branch), renaming each chunk and concatenating yields one element by the
open-tag count, while the synchronous pass over the identical content
yields two: the malformed fragment `<>a>` is dropped by the chunking regex
but still counted by the element-count regex. -/
theorem C5_counterexample :
    blobSize "<svg><>a></svg>" ≤ 10485760 ∧
    countElements (((chunkSvgContent 4 "<svg><>a></svg>".data).map processChunk).flatten)
      ≠ countElements (processStandardSvg "<svg><>a></svg>".data defaultOptions) := by
  constructor
  · decide
  · decide

set_option maxHeartbeats 2000000 in
/-- C5 (amended): for a well-formed document — tag bodies free of angle
brackets and nonempty, inter-tag text free of angle brackets — at or under
the size ceiling and long enough to take the element-boundary chunking
branch, the chunked pipeline (split by `chunkSvgContent`, rename each chunk
with `processChunk`, concatenate) yields the same total element count as
the synchronous `processStandardSvg` pass over the identical content. -/
theorem C5_chunked_count_eq (prs : List (List Char × List Char)) (tail : List Char)
    (maxCS : Nat) (hwf : WellFormedDoc prs tail)
    (_hsize : blobSizeL (renderDoc prs tail) ≤ defaultOptions.maxFileSize)
    (hlen : (renderDoc prs tail).length > maxCS * 2) :
    countElements (((chunkSvgContent maxCS (renderDoc prs tail)).map processChunk).flatten)
      = countElements (processStandardSvg (renderDoc prs tail) defaultOptions) := by
  have hchunk : chunkSvgContent maxCS (renderDoc prs tail) =
      chunkByElements maxCS (renderDoc prs tail) := by
    unfold chunkSvgContent
    rw [if_pos hlen]
  have hheads : ∀ e ∈ elementMatches (renderDoc prs tail), e.head? = some ('<' : Char) := by
    intro e he
    rw [elementMatches_renderDoc prs tail hwf] at he
    obtain ⟨p, _, rfl⟩ := List.mem_map.mp he
    rfl
  have hA := WellFormedDoc_applyRenames _ _ (WellFormedDoc_strip prs tail hwf)
  have hB := WellFormedDoc_applyRenames prs tail hwf
  trans ((prs.filter (fun p => headKeep (fun c => !(c = '/')) p.2)).length)
  · rw [hchunk, chunked_pipeline_eq maxCS _ hheads,
      elementMatches_renderDoc prs tail hwf, flatten_map_renderTag,
      applyRenames_renderDoc,
      countElements_renderDoc _ _ hA,
      filter_headKeep_map (fun c => !(c = '/')) (prs.map (fun p => (([] : List Char), p.2)))
        (fun p => (applyRenames p.1, applyRenames p.2))
        (fun p => headKeep_applyRenames _ _),
      filter_headKeep_map (fun c => !(c = '/')) prs
        (fun p => (([] : List Char), p.2))
        (fun p => rfl)]
  · rw [show processStandardSvg (renderDoc prs tail) defaultOptions =
        applyRenames (renderDoc prs tail) from rfl,
      applyRenames_renderDoc,
      countElements_renderDoc _ _ hB,
      filter_headKeep_map (fun c => !(c = '/')) prs
        (fun p => (applyRenames p.1, applyRenames p.2))
        (fun p => headKeep_applyRenames _ _)]

set_option maxRecDepth 8000 in
/-- C5 witness: the amended theorem applied to a concrete three-tag
document at chunk size 2. -/
theorem C5_witness :
    WellFormedDoc W5prs [] ∧
    blobSizeL (renderDoc W5prs []) ≤ defaultOptions.maxFileSize ∧
    (renderDoc W5prs []).length > 2 * 2 ∧
    countElements (((chunkSvgContent 2 (renderDoc W5prs [])).map processChunk).flatten)
      = countElements (processStandardSvg (renderDoc W5prs []) defaultOptions) := by
  refine ⟨?_, ?_, ?_, ?_⟩
  · simp only [WellFormedDoc, angleFree, W5prs]
    decide
  · decide
  · decide
  · exact C5_chunked_count_eq W5prs [] 2
      (by simp only [WellFormedDoc, angleFree, W5prs]; decide) (by decide) (by decide)
